import Mathlib

/-!
# Verification of the MCU core substrate (timer service, serial transport, command engine)

Shallow embedding of the C modules `tmr.c`, `ttys.c`, `cmd.c` of the
mcu-class-1-code repository.  Machine integers (`uint32_t`, `uint16_t`)
are modelled as `Nat` with explicit reduction modulo `2^32` / saturation
at `2^16 - 1` exactly where the C arithmetic wraps or saturates.
Fallible C functions returning negative `MOD_ERR` codes return `Int`.
Global mutable module state is threaded explicitly through the
functions.  Hardware register accesses (NVIC, USART data register,
interrupt enable bits) are modelled as explicit inputs/outputs of the
functions that touch them.
-/

set_option maxRecDepth 10000

namespace Mcu

/-- `2^32`, the modulus of `uint32_t` arithmetic. -/
def U32 : Nat := 4294967296

/-- `UINT16_MAX`. -/
def U16_MAX : Nat := 65535

/-- `uint32_t` addition. -/
def add32 (a b : Nat) : Nat := (a + b) % U32

/-- `uint32_t` subtraction `a - b` (wrap-tolerant). -/
def sub32 (a b : Nat) : Nat := (a + U32 - b % U32) % U32

/-- `INC_SAT_U16` from module.h: `(a) += ((a) == UINT16_MAX ? 0 : 1)`. -/
def INC_SAT_U16 (a : Nat) : Nat := a + (if a = U16_MAX then 0 else 1)

-- Error codes from module.h.
def MOD_ERR_ARG : Int := -1
def MOD_ERR_RESOURCE : Int := -2
def MOD_ERR_STATE : Int := -3
def MOD_ERR_BAD_CMD : Int := -4
def MOD_ERR_BUF_OVERRUN : Int := -5
def MOD_ERR_BAD_INSTANCE : Int := -6

/-! ## tmr module (tmr.c) -/

/-- `TMR_NUM_INST` from tmr.h. -/
def TMR_NUM_INST : Nat := 5

/-- `enum tmr_state` from tmr.c. -/
inductive TmrState
  | unused
  | stopped
  | running
  | expired
deriving DecidableEq, Repr

/-- `enum tmr_cb_action` from tmr.h (`TMR_CB_NONE`, `TMR_CB_RESTART`). -/
inductive TmrCbAction
  | none
  | restart
deriving DecidableEq, Repr

/-- `struct tmr_inst_info` from tmr.c.  The callback function pointer is
modelled as an optional Lean function from `(tmr_id, user_data)` to the
returned action (`NULL` = `Option.none`). -/
structure TmrInst where
  period_ms : Nat
  start_time : Nat
  state : TmrState
  cb_func : Option (Nat → Nat → TmrCbAction)
  cb_user_data : Nat

instance : Inhabited TmrInst := ⟨⟨0, 0, .unused, Option.none, 0⟩⟩

/-- Helper for `tmr_inst_get`: walk the slot array and claim the first
`TMR_UNUSED` slot (loop body of tmr.c lines 246-260).  Returns the
claimed index and the updated pool, or `Option.none` if no slot is
unused.  `now` is the value `tmr_get_ms()` would return. -/
def tmr_inst_get_aux (now ms : Nat) : List TmrInst → Option (Nat × List TmrInst)
  | [] => Option.none
  | ti :: rest =>
    if ti.state = .unused then
      some (0, { ti with
                 period_ms := ms,
                 state := if ms = 0 then .stopped else .running,
                 start_time := if ms = 0 then ti.start_time else now,
                 cb_func := Option.none,
                 cb_user_data := 0 } :: rest)
    else
      match tmr_inst_get_aux now ms rest with
      | Option.none => Option.none
      | some (i, rest') => some (i + 1, ti :: rest')

/-- `tmr_inst_get` from tmr.c: allocate a timer slot.  Returns the slot
id (`≥ 0`) or `MOD_ERR_RESOURCE`, with the updated pool. -/
def tmr_inst_get (now ms : Nat) (tmrs : List TmrInst) : Int × List TmrInst :=
  match tmr_inst_get_aux now ms tmrs with
  | Option.none => (MOD_ERR_RESOURCE, tmrs)
  | some (i, tmrs') => ((i : Int), tmrs')

/-- `tmr_inst_start` from tmr.c: start, restart, or stop a timer slot.
`now` is the value `tmr_get_ms()` would return. -/
def tmr_inst_start (now : Nat) (tmr_id : Int) (ms : Nat) (tmrs : List TmrInst) :
    Int × List TmrInst :=
  if 0 ≤ tmr_id ∧ tmr_id < (TMR_NUM_INST : Int) then
    let i := tmr_id.toNat
    let ti := tmrs.getD i default
    if ti.state ≠ .unused then
      (0, tmrs.set i { ti with
                       period_ms := ms,
                       state := if ms = 0 then .stopped else .running,
                       start_time := if ms = 0 then ti.start_time else now })
    else
      (MOD_ERR_STATE, tmrs)
  else
    (MOD_ERR_ARG, tmrs)

/-- `tmr_inst_release` from tmr.c. -/
def tmr_inst_release (tmr_id : Int) (tmrs : List TmrInst) : Int × List TmrInst :=
  if 0 ≤ tmr_id ∧ tmr_id < (TMR_NUM_INST : Int) then
    let i := tmr_id.toNat
    (0, tmrs.set i { tmrs.getD i default with state := .unused })
  else
    (MOD_ERR_ARG, tmrs)

/-- `tmr_inst_is_expired` from tmr.c. -/
def tmr_inst_is_expired (tmr_id : Int) (tmrs : List TmrInst) : Int :=
  if 0 ≤ tmr_id ∧ tmr_id < (TMR_NUM_INST : Int) then
    if (tmrs.getD tmr_id.toNat default).state = .expired then 1 else 0
  else
    MOD_ERR_ARG

/-- Slot-servicing loop of `tmr_run` (tmr.c lines 192-208).  `idx` is the
absolute index of the head slot (passed to callbacks), `now` the value
of the local `now_ms` variable, and `clocks` the successive values that
`tmr_get_ms()` returns at the re-read after each callback invocation
(the millisecond counter is advanced concurrently by the tick
interrupt; an exhausted list means the clock did not advance).
Returns the updated slots, the final `now_ms`, and the unconsumed
clock readings. -/
def tmr_run_aux (idx now : Nat) (clocks : List Nat) :
    List TmrInst → List TmrInst × Nat × List Nat
  | [] => ([], now, clocks)
  | ti :: rest =>
    if ti.state = .running ∧ sub32 now ti.start_time ≥ ti.period_ms then
      match ti.cb_func with
      | Option.none =>
        let r := tmr_run_aux (idx + 1) now clocks rest
        ({ ti with state := .expired } :: r.1, r.2.1, r.2.2)
      | some cb =>
        let result := cb idx ti.cb_user_data
        let now' := clocks.headD now
        let clocks' := clocks.tail
        let ti' :=
          if result = .restart then
            { ti with state := .running,
                      start_time := add32 ti.start_time ti.period_ms }
          else
            { ti with state := .expired }
        let r := tmr_run_aux (idx + 1) now' clocks' rest
        (ti' :: r.1, r.2.1, r.2.2)
    else
      let r := tmr_run_aux (idx + 1) now clocks rest
      (ti :: r.1, r.2.1, r.2.2)

/-- `tmr_run` from tmr.c.  `last_ms` is the function's static variable
(initially 0), `now_ms` the value `tmr_get_ms()` returns on entry, and
`clocks` the clock readings after callback invocations (see
`tmr_run_aux`).  Returns `(return code, new last_ms, new slots)`. -/
def tmr_run (last_ms now_ms : Nat) (tmrs : List TmrInst) (clocks : List Nat) :
    Int × Nat × List TmrInst :=
  if now_ms = last_ms then
    (0, last_ms, tmrs)
  else
    (0, now_ms, (tmr_run_aux 0 now_ms clocks tmrs).1)

/-- The value the local variable `now_ms` of `tmr_run` holds when the
servicing loop reaches slot `j` (mirrors `tmr_run_aux`: a clock reading
is consumed exactly when an expired slot with a callback is serviced
at an earlier index). -/
def tmr_now_at (now : Nat) (clocks : List Nat) :
    List TmrInst → Nat → Nat
  | _, 0 => now
  | [], _ + 1 => now
  | ti :: rest, j + 1 =>
    if ti.state = .running ∧ sub32 now ti.start_time ≥ ti.period_ms then
      match ti.cb_func with
      | Option.none => tmr_now_at now clocks rest j
      | some _ => tmr_now_at (clocks.headD now) clocks.tail rest j
    else
      tmr_now_at now clocks rest j

/-- Iterated invocations of `tmr_run`.  Each pass supplies the clock
value read on entry and the clock readings consumed after callbacks;
`last` is the static `last_ms` variable carried between invocations. -/
def tmr_run_passes (last : Nat) (tmrs : List TmrInst) :
    List (Nat × List Nat) → Nat × List TmrInst
  | [] => (last, tmrs)
  | (now, clocks) :: rest =>
    let r := tmr_run last now tmrs clocks
    tmr_run_passes r.2.1 r.2.2 rest

/-! ## ttys module (ttys.c)

The UART hardware (interrupt enable bits, NVIC, the stdio stream
plumbing) is outside the embedding: the status register observed by the
interrupt handler and the data register it reads/writes are explicit
inputs/outputs. -/

/-- `TTYS_NUM_INSTANCES` from ttys.h. -/
def TTYS_NUM_INSTANCES : Nat := 3

/-- `TTYS_RX_BUF_SIZE` from ttys.h. -/
def TTYS_RX_BUF_SIZE : Nat := 80

/-- `TTYS_TX_BUF_SIZE` from ttys.h. -/
def TTYS_TX_BUF_SIZE : Nat := 1024

-- Indices of `enum ttys_u16_pms` (ttys.c lines 110-119).
def CNT_RX_UART_ORE : Nat := 0
def CNT_RX_UART_NE : Nat := 1
def CNT_RX_UART_FE : Nat := 2
def CNT_RX_UART_PE : Nat := 3
def CNT_TX_BUF_OVERRUN : Nat := 4
def CNT_RX_BUF_OVERRUN : Nat := 5
def NUM_U16_PMS : Nat := 6

/-- One direction's ring buffer: the fixed-capacity byte array plus the
get/put index pair of `struct ttys_state` (either
`tx_buf`/`tx_buf_get_idx`/`tx_buf_put_idx` or the `rx_` triple). -/
structure Ring where
  buf : List Nat
  get_idx : Nat
  put_idx : Nat
deriving DecidableEq, Repr

instance : Inhabited Ring := ⟨⟨[], 0, 0⟩⟩

/-- Producer step of the ring-buffer algorithm, exactly as in
`ttys_putc` (ttys.c lines 334-347) and, with the same index formula, the
RXNE branch of `ttys_interrupt` (lines 473-483): compute the advanced
put index with wraparound; if it would collide with the get index the
buffer is full and nothing is stored (`false`); otherwise write the data
slot, then advance `put`. -/
def ring_put (C : Nat) (r : Ring) (c : Nat) : Bool × Ring :=
  let next_put_idx := if r.put_idx + 1 ≥ C then 0 else r.put_idx + 1
  if next_put_idx = r.get_idx then
    (false, r)
  else
    (true, { r with buf := r.buf.set r.put_idx c, put_idx := next_put_idx })

/-- Consumer step of the ring-buffer algorithm, exactly as in
`ttys_getc` (ttys.c lines 376-386) and, with the same index formula
(`get < SIZE-1 ? get+1 : 0`), the TXE branch of `ttys_interrupt`
(lines 487-496): if get equals put the buffer is empty; otherwise read
the data slot, then advance `get` with wraparound. -/
def ring_get (C : Nat) (r : Ring) : Option Nat × Ring :=
  if r.get_idx = r.put_idx then
    (Option.none, r)
  else
    let next_get_idx := if r.get_idx + 1 ≥ C then 0 else r.get_idx + 1
    (some (r.buf.getD r.get_idx 0), { r with get_idx := next_get_idx })

/-- Ring-buffer fields of `struct ttys_state` for one instance. -/
structure TtysState where
  tx : Ring
  rx : Ring
deriving DecidableEq, Repr

instance : Inhabited TtysState := ⟨⟨default, default⟩⟩

/-- The ttys module's mutable data: the per-instance `ttys_states`
array, and the performance counters `cnts_u16`, which in ttys.c are a
single module-level array **common to all instances** (lines 107-108:
"Currently these are common to all instances", line 139). -/
structure TtysSystem where
  states : List TtysState
  cnts_u16 : List Nat
deriving DecidableEq, Repr

/-- `ttys_putc` from ttys.c (lines 325-356).  The byte is appended to
the instance's transmit ring; if the ring is full the byte is dropped,
the shared `CNT_TX_BUF_OVERRUN` counter is incremented with saturation,
and `MOD_ERR_BUF_OVERRUN` is returned.  (The re-enabling of the TXE
interrupt on success, lines 349-354, is a hardware side effect outside
the state modelled here.) -/
def ttys_putc (instance_id c : Nat) (sys : TtysSystem) : Int × TtysSystem :=
  if instance_id ≥ TTYS_NUM_INSTANCES then
    (MOD_ERR_BAD_INSTANCE, sys)
  else
    let st := sys.states.getD instance_id default
    let pr := ring_put TTYS_TX_BUF_SIZE st.tx c
    if pr.1 then
      (0, { sys with states := sys.states.set instance_id { st with tx := pr.2 } })
    else
      (MOD_ERR_BUF_OVERRUN,
       { sys with
         cnts_u16 := sys.cnts_u16.set CNT_TX_BUF_OVERRUN
           (INC_SAT_U16 (sys.cnts_u16.getD CNT_TX_BUF_OVERRUN 0)) })

/-- `ttys_getc` from ttys.c (lines 366-387): pop one byte from the
instance's receive ring.  Returns the number of characters returned
(0 or 1, or `MOD_ERR_BAD_INSTANCE`), the byte, and the new state. -/
def ttys_getc (instance_id : Nat) (sys : TtysSystem) :
    Int × Option Nat × TtysSystem :=
  if instance_id ≥ TTYS_NUM_INSTANCES then
    (MOD_ERR_BAD_INSTANCE, Option.none, sys)
  else
    let st := sys.states.getD instance_id default
    let gr := ring_get TTYS_RX_BUF_SIZE st.rx
    match gr.1 with
    | Option.none => (0, Option.none, sys)
    | some b =>
      (1, some b, { sys with states := sys.states.set instance_id { st with rx := gr.2 } })

/-- The UART status-register flags examined by `ttys_interrupt`. -/
structure UsartSR where
  rxne : Bool
  txe : Bool
  ore : Bool
  ne : Bool
  fe : Bool
  pe : Bool
deriving DecidableEq, Repr

/-- `ttys_interrupt` from ttys.c (lines 452-514).  `sr` is the sampled
status register, `dr` the value the data register would deliver on a
read.  Returns the new module state and the byte written to the data
register by the TXE branch (if any).  On RXNE the incoming byte is
enqueued to the receive ring or, if full, dropped while the shared
`CNT_RX_BUF_OVERRUN` counter is incremented; on TXE a byte is dequeued
from the transmit ring (an empty ring instead disables the TXE
interrupt, a hardware effect outside the modelled state); hardware
error flags increment their shared saturating counters. -/
def ttys_interrupt (instance_id : Nat) (sr : UsartSR) (dr : Nat)
    (sys : TtysSystem) : TtysSystem × Option Nat :=
  if instance_id ≥ TTYS_NUM_INSTANCES then
    (sys, Option.none)
  else
    let sys1 :=
      if sr.rxne then
        let st := sys.states.getD instance_id default
        let pr := ring_put TTYS_RX_BUF_SIZE st.rx dr
        if pr.1 then
          { sys with states := sys.states.set instance_id { st with rx := pr.2 } }
        else
          { sys with
            cnts_u16 := sys.cnts_u16.set CNT_RX_BUF_OVERRUN
              (INC_SAT_U16 (sys.cnts_u16.getD CNT_RX_BUF_OVERRUN 0)) }
      else sys
    let st1 := sys1.states.getD instance_id default
    let txr :=
      if sr.txe then
        match ring_get TTYS_TX_BUF_SIZE st1.tx with
        | (Option.none, _) => (sys1, Option.none)
        | (some b, tx') =>
          ({ sys1 with states := sys1.states.set instance_id { st1 with tx := tx' } },
           some b)
      else (sys1, Option.none)
    let sys2 := txr.1
    let cnts0 := sys2.cnts_u16
    let cnts1 := if sr.ore then
        cnts0.set CNT_RX_UART_ORE (INC_SAT_U16 (cnts0.getD CNT_RX_UART_ORE 0))
      else cnts0
    let cnts2 := if sr.ne then
        cnts1.set CNT_RX_UART_NE (INC_SAT_U16 (cnts1.getD CNT_RX_UART_NE 0))
      else cnts1
    let cnts3 := if sr.fe then
        cnts2.set CNT_RX_UART_FE (INC_SAT_U16 (cnts2.getD CNT_RX_UART_FE 0))
      else cnts2
    let cnts4 := if sr.pe then
        cnts3.set CNT_RX_UART_PE (INC_SAT_U16 (cnts3.getD CNT_RX_UART_PE 0))
      else cnts3
    ({ sys2 with cnts_u16 := cnts4 }, txr.2)

/-- Iterated `ttys_putc` of a byte list (in order). -/
def ttys_putc_list (instance_id : Nat) (cs : List Nat) (sys : TtysSystem) :
    TtysSystem :=
  cs.foldl (fun s c => (ttys_putc instance_id c s).2) sys

/-- `n` invocations of `ttys_interrupt` with only TXE set, collecting
the bytes written to the data register; stops early if the transmit
ring empties. -/
def ttys_txe_n (instance_id : Nat) (sys : TtysSystem) :
    Nat → List Nat × TtysSystem
  | 0 => ([], sys)
  | n + 1 =>
    let r := ttys_interrupt instance_id ⟨false, true, false, false, false, false⟩ 0 sys
    match r.2 with
    | Option.none => ([], r.1)
    | some b =>
      let rest := ttys_txe_n instance_id r.1 n
      (b :: rest.1, rest.2)

/-- Iterated `ttys_interrupt` with only RXNE set, delivering the given
bytes through the data register (in order). -/
def ttys_rxne_list (instance_id : Nat) (cs : List Nat) (sys : TtysSystem) :
    TtysSystem :=
  cs.foldl (fun s c => (ttys_interrupt instance_id ⟨true, false, false, false, false, false⟩ c s).1) sys

/-- `n` invocations of `ttys_getc`, collecting the returned bytes;
stops early if the receive ring empties. -/
def ttys_getc_n (instance_id : Nat) (sys : TtysSystem) :
    Nat → List Nat × TtysSystem
  | 0 => ([], sys)
  | n + 1 =>
    let r := ttys_getc instance_id sys
    match r.2.1 with
    | Option.none => ([], r.2.2)
    | some b =>
      let rest := ttys_getc_n instance_id r.2.2 n
      (b :: rest.1, rest.2)

/-- Abstract element count of a ring buffer (`0` iff empty,
`C - 1` iff full). -/
def ring_count (C : Nat) (r : Ring) : Nat :=
  if r.get_idx ≤ r.put_idx then r.put_idx - r.get_idx
  else r.put_idx + C - r.get_idx

/-- Well-formedness of a ring buffer of capacity `C`: indices in range
and backing array of the right size (maintained by `ttys_init` and all
ring operations). -/
def ring_wf (C : Nat) (r : Ring) : Prop :=
  r.get_idx < C ∧ r.put_idx < C ∧ r.buf.length = C

/-- Iterated `ring_put` of a byte list (in order), dropping bytes on
overrun exactly as the producers do. -/
def ring_put_list (C : Nat) (r : Ring) (cs : List Nat) : Ring :=
  cs.foldl (fun s c => (ring_put C s c).2) r

/-- `n` `ring_get` steps, collecting the dequeued bytes; stops early on
an empty ring. -/
def ring_get_n (C : Nat) (r : Ring) : Nat → List Nat × Ring
  | 0 => ([], r)
  | n + 1 =>
    match ring_get C r with
    | (Option.none, r') => ([], r')
    | (some b, r') =>
      let rest := ring_get_n C r' n
      (b :: rest.1, rest.2)

/-- The transmit ring of an instance is full: the advanced put index
collides with the get index (the condition of ttys.c line 340). -/
def ttys_tx_full (st : TtysState) : Prop :=
  (if st.tx.put_idx + 1 ≥ TTYS_TX_BUF_SIZE then 0 else st.tx.put_idx + 1) =
    st.tx.get_idx

/-! ## cmd module (cmd.c)

`printf` output is not part of the modelled state except for the
argument-parser diagnostics, which are modelled as a structured
`CmdDiag` value so that "a diagnostic naming the token" is a provable
statement.  Client command handlers are external code: their invocation
is recorded as a `CmdEvent` and, as in cmd.c line 363-364, their return
value is discarded (`cmd_execute` returns 0 after calling a handler). -/

/-- `MAX_CMD_TOKENS` from cmd.c. -/
def MAX_CMD_TOKENS : Nat := 10

/-- `CMD_MAX_CLIENTS` from cmd.h. -/
def CMD_MAX_CLIENTS : Nat := 10

/-- C `isspace` in the default locale: space, `\t`, `\n`, vertical tab,
form feed, `\r`. -/
def c_isspace (ch : Char) : Bool :=
  ch == ' ' || ch == '\t' || ch == '\n' || ch.toNat == 11 || ch.toNat == 12 ||
    ch == '\r'

/-- C `tolower` in the default locale (ASCII). -/
def c_tolower (ch : Char) : Char :=
  if 'A' ≤ ch ∧ ch ≤ 'Z' then Char.ofNat (ch.toNat + 32) else ch

/-- `strcasecmp(a, b) == 0`. -/
def lcEq (a b : List Char) : Bool :=
  a.map c_tolower == b.map c_tolower

/-- In-place whitespace tokenizer of `cmd_execute` (cmd.c lines
188-213), producing the token list (`cur` is the reversed token being
accumulated). -/
def tokenizeAux : List Char → List Char → List (List Char)
  | [], cur => if cur.isEmpty then [] else [cur.reverse]
  | ch :: rest, cur =>
    if c_isspace ch then
      if cur.isEmpty then tokenizeAux rest []
      else cur.reverse :: tokenizeAux rest []
    else
      tokenizeAux rest (ch :: cur)

/-- All tokens of a command line (runs of whitespace separate tokens;
no quoting). -/
def tokenize (s : List Char) : List (List Char) :=
  tokenizeAux s []

/-- `struct cmd_cmd_info`: a named sub-command (the handler function is
external; its invocation is recorded as a `CmdEvent`). -/
structure CmdCmdInfo where
  name : List Char
  help : List Char
deriving DecidableEq, Repr

/-- `struct cmd_client_info`.  `log_level` is the value behind
`log_level_ptr` (`Option.none` models a NULL pointer); `u16_pms` the
values behind `u16_pms` with `num_u16_pms = u16_pms.length`. -/
structure CmdClientInfo where
  name : List Char
  cmds : List CmdCmdInfo
  log_level : Option Int
  u16_pms : List Nat
  u16_pm_names : List (List Char)
deriving DecidableEq, Repr

/-- `log_level_names` from cmd.c (`LOG_LEVEL_NAMES_CSV` of log.h). -/
def log_level_names : List (List Char) :=
  ["off".data, "error".data, "warning".data,
   "info".data, "debug".data, "trace".data]

/-- Loop body of `log_level_int`. -/
def log_level_int_aux : List (List Char) → List Char → Int → Int
  | [], _, _ => -1
  | nm :: rest, s, lvl =>
    if lcEq s nm then lvl else log_level_int_aux rest s (lvl + 1)

/-- `log_level_int` from cmd.c: case-insensitive level-name lookup,
`-1` when unknown. -/
def log_level_int (level_name : List Char) : Int :=
  log_level_int_aux log_level_names level_name 0

/-- Observable invocation of a registered client handler
(cmd.c line 363): client index, sub-command index, full token list. -/
inductive CmdEvent
  | dispatched (client_idx cmd_idx : Nat) (argv : List (List Char))
deriving DecidableEq, Repr

/-- Wildcard branch of `cmd_execute` (cmd.c lines 220-252): only `log`
is acted upon; with a third token the level is parsed and, when valid,
set on every registered client that exposes a log-level pointer; any
other second token falls through to `return 0`. -/
def cmd_wildcard (clients : List CmdClientInfo)
    (tokens : List (List Char)) : Int × List CmdClientInfo :=
  if tokens.length < 2 then
    (MOD_ERR_BAD_CMD, clients)
  else if lcEq (tokens.getD 1 []) ("log".data) then
    if tokens.length = 3 then
      let lvl := log_level_int (tokens.getD 2 [])
      if lvl < 0 then
        (MOD_ERR_ARG, clients)
      else
        (0, (clients.take CMD_MAX_CLIENTS).map
              (fun ci => if ci.log_level.isSome then { ci with log_level := some lvl }
                         else ci)
            ++ clients.drop CMD_MAX_CLIENTS)
    else if tokens.length > 3 then
      (MOD_ERR_ARG, clients)
    else
      (0, clients)
  else
    (0, clients)

/-- Index of the first sub-command whose name matches case-insensitively
(cmd.c lines 360-366). -/
def findCmdIdx : List CmdCmdInfo → List Char → Nat → Option Nat
  | [], _, _ => Option.none
  | cc :: rest, s, i =>
    if lcEq s cc.name then some i else findCmdIdx rest s (i + 1)

/-- Per-client branch of `cmd_execute` once the client name matched
(cmd.c lines 289-368): built-in `help`/`?`, `log`, `pm` are handled
directly (each `return 0` except an invalid log level), otherwise the
sub-command list is searched and the handler invoked (its return value
discarded, result 0), or `MOD_ERR_BAD_CMD` when nothing matches. -/
def cmd_client_body (ci : CmdClientInfo) (cIdx : Nat)
    (tokens : List (List Char)) : Int × CmdClientInfo × List CmdEvent :=
  let tok1 := if tokens.length = 1 then [] else tokens.getD 1 []
  if lcEq tok1 ("help".data) ∨ lcEq tok1 ("?".data) then
    (0, ci, [])
  else if lcEq tok1 ("log".data) then
    match ci.log_level with
    | Option.none => (0, ci, [])
    | some _ =>
      if tokens.length < 3 then
        (0, ci, [])
      else
        let lvl := log_level_int (tokens.getD 2 [])
        if lvl < 0 then (MOD_ERR_ARG, ci, [])
        else (0, { ci with log_level := some lvl }, [])
  else if lcEq tok1 ("pm".data) then
    if ci.u16_pms.length > 0 then
      if 3 ≤ tokens.length ∧ lcEq (tokens.getD 2 []) ("clear".data) then
        (0, { ci with u16_pms := ci.u16_pms.map (fun _ => 0) }, [])
      else
        (0, ci, [])
    else
      (0, ci, [])
  else
    match findCmdIdx ci.cmds tok1 0 with
    | some i => (0, ci, [CmdEvent.dispatched cIdx i tokens])
    | Option.none => (MOD_ERR_BAD_CMD, ci, [])

/-- Client-search loop of `cmd_execute` (cmd.c lines 282-371): the
first client whose name matches token 0 case-insensitively handles the
command; no match is `MOD_ERR_BAD_CMD`. -/
def cmd_dispatch : List CmdClientInfo → Nat → List (List Char) →
    Int × List CmdClientInfo × List CmdEvent
  | [], _, _ => (MOD_ERR_BAD_CMD, [], [])
  | ci :: rest, idx, tokens =>
    if lcEq (tokens.getD 0 []) ci.name then
      let r := cmd_client_body ci idx tokens
      (r.1, r.2.1 :: rest, r.2.2)
    else
      let r := cmd_dispatch rest (idx + 1) tokens
      (r.1, ci :: r.2.1, r.2.2)

/-- First registered client matching a name case-insensitively (the one
`cmd_dispatch` selects). -/
def cmd_find_client : List CmdClientInfo → List Char → Option CmdClientInfo
  | [], _ => Option.none
  | ci :: rest, t0 =>
    if lcEq t0 ci.name then some ci else cmd_find_client rest t0

/-- `cmd_execute` from cmd.c.  `clients` is the non-NULL prefix of the
`client_info` registry (maintained contiguous by `cmd_register`).
Returns the result code, the updated registry, and the handler
invocations performed.  Exceeding `MAX_CMD_TOKENS` during tokenization
aborts with `MOD_ERR_BAD_CMD` before any dispatch (cmd.c lines
197-200). -/
def cmd_execute (clients : List CmdClientInfo) (bfr : List Char) :
    Int × List CmdClientInfo × List CmdEvent :=
  let tokens := tokenize bfr
  if tokens.length > MAX_CMD_TOKENS then
    (MOD_ERR_BAD_CMD, clients, [])
  else if tokens.length = 0 then
    (0, clients, [])
  else if tokens.getD 0 [] = ['*'] then
    let r := cmd_wildcard clients tokens
    (r.1, r.2, [])
  else if lcEq (tokens.getD 0 []) ("help".data) ∨
      lcEq (tokens.getD 0 []) ("?".data) then
    (0, clients, [])
  else
    let r := cmd_dispatch (clients.take CMD_MAX_CLIENTS) 0 tokens
    (r.1, r.2.1 ++ clients.drop CMD_MAX_CLIENTS, r.2.2)

/-! ### Integer parsing (`strtol`/`strtoul` on the 32-bit target) -/

def isOctDigit (ch : Char) : Bool := '0' ≤ ch ∧ ch ≤ '7'

def isDecDigit (ch : Char) : Bool := '0' ≤ ch ∧ ch ≤ '9'

def isHexDigitC (ch : Char) : Bool :=
  ('0' ≤ ch ∧ ch ≤ '9') ∨ ('a' ≤ ch ∧ ch ≤ 'f') ∨ ('A' ≤ ch ∧ ch ≤ 'F')

def hexVal (ch : Char) : Nat :=
  if '0' ≤ ch ∧ ch ≤ '9' then ch.toNat - '0'.toNat
  else if 'a' ≤ ch ∧ ch ≤ 'f' then ch.toNat - 'a'.toNat + 10
  else ch.toNat - 'A'.toNat + 10

/-- Greedily consume digits accepted by `isd`, accumulating the value
in the given base; returns the value and the unconsumed suffix. -/
def parse_digits (isd : Char → Bool) (base : Nat) :
    List Char → Nat → Nat × List Char
  | [], acc => (acc, [])
  | ch :: rest, acc =>
    if isd ch then parse_digits isd base rest (acc * base + hexVal ch)
    else (acc, ch :: rest)

/-- Sign character handling shared by the strtoul/strtol models:
(negate?, rest after an optional sign). -/
def strtox_sign (s1 : List Char) : Bool × List Char :=
  match s1 with
  | '-' :: r => (true, r)
  | '+' :: r => (false, r)
  | _ => (false, s1)

/-- Digit parse for base 0 (C base auto-detection): `0x`/`0X` followed
by a hex digit selects hexadecimal, a leading `0` octal, otherwise
decimal. -/
def strtox_digits0 (s2 : List Char) : Nat × List Char :=
  match s2 with
  | '0' :: 'x' :: r =>
    if isHexDigitC (r.headD ' ') then parse_digits isHexDigitC 16 r 0
    else parse_digits isOctDigit 8 ('0' :: 'x' :: r) 0
  | '0' :: 'X' :: r =>
    if isHexDigitC (r.headD ' ') then parse_digits isHexDigitC 16 r 0
    else parse_digits isOctDigit 8 ('0' :: 'X' :: r) 0
  | '0' :: r => parse_digits isOctDigit 8 ('0' :: r) 0
  | _ => parse_digits isDecDigit 10 s2 0

/-- Modelled after C `strtoul(s, &endptr, 0)` on the 32-bit target:
skip whitespace, optional sign, auto-detected base; the value is
clamped to `ULONG_MAX` on overflow and negated modulo `2^32` for a
minus sign; when no digits are consumed, `endptr` is the original
string. -/
def strtoul0 (s : List Char) : Nat × List Char :=
  let s1 := s.dropWhile (fun ch => c_isspace ch)
  let sg := strtox_sign s1
  let pr := strtox_digits0 sg.2
  if pr.2.length = sg.2.length then
    (0, s)
  else
    let v := min pr.1 (U32 - 1)
    ((if sg.1 then (U32 - v) % U32 else v), pr.2)

/-- Modelled after C `strtol(s, &endptr, 0)` on the 32-bit target
(clamped to `LONG_MIN`/`LONG_MAX` on overflow). -/
def strtol0 (s : List Char) : Int × List Char :=
  let s1 := s.dropWhile (fun ch => c_isspace ch)
  let sg := strtox_sign s1
  let pr := strtox_digits0 sg.2
  if pr.2.length = sg.2.length then
    (0, s)
  else
    ((if sg.1 then max (-(pr.1 : Int)) (-(2 ^ 31)) else min (pr.1 : Int) (2 ^ 31 - 1)),
     pr.2)

/-- Modelled after C `strtoul(s, &endptr, 16)` on the 32-bit target:
an optional `0x`/`0X` prefix is skipped when followed by a hex digit. -/
def strtoul16 (s : List Char) : Nat × List Char :=
  let s1 := s.dropWhile (fun ch => c_isspace ch)
  let sg := strtox_sign s1
  let pr :=
    match sg.2 with
    | '0' :: 'x' :: r =>
      if isHexDigitC (r.headD ' ') then parse_digits isHexDigitC 16 r 0
      else parse_digits isHexDigitC 16 ('0' :: 'x' :: r) 0
    | '0' :: 'X' :: r =>
      if isHexDigitC (r.headD ' ') then parse_digits isHexDigitC 16 r 0
      else parse_digits isHexDigitC 16 ('0' :: 'X' :: r) 0
    | s2 => parse_digits isHexDigitC 16 s2 0
  if pr.2.length = sg.2.length then
    (0, s)
  else
    let v := min pr.1 (U32 - 1)
    ((if sg.1 then (U32 - v) % U32 else v), pr.2)

/-- `struct cmd_arg_val`: a parsed argument (the constructor plays the
role of the `type` tag). -/
inductive CmdArgVal
  | i (v : Int)
  | u (v : Nat)
  | p (v : Nat)
  | s (v : List Char)
deriving DecidableEq, Repr

/-- The diagnostics `cmd_parse_args` prints before returning an error
(cmd.c lines 442-491), with the offending token carried verbatim. -/
inductive CmdDiag
  | insufficient_args
  | invalid_empty_arg
  | not_valid_integer (tok : List Char)
  | not_valid_unsigned (tok : List Char)
  | not_valid_pointer (tok : List Char)
  | bad_arg_format (ch : Char)
  | too_many_args
deriving DecidableEq, Repr

/-- Main loop of `cmd_parse_args` (cmd.c lines 427-493): walk the
format string, consuming argument tokens; `opt_args` is set by `[` and
cleared after each consumed argument; when the format is exhausted,
leftover tokens are `too_many_args`. -/
def cmd_parse_args_aux : List Char → List (List Char) → Bool → Nat →
    List CmdArgVal → Int × List CmdArgVal × List CmdDiag
  | [], argv, _, arg_cnt, acc =>
    if argv.length > 0 then (MOD_ERR_BAD_CMD, acc, [CmdDiag.too_many_args])
    else ((arg_cnt : Int), acc, [])
  | '[' :: fmt, argv, _, arg_cnt, acc =>
    cmd_parse_args_aux fmt argv true arg_cnt acc
  | ']' :: fmt, argv, opt_args, arg_cnt, acc =>
    cmd_parse_args_aux fmt argv opt_args arg_cnt acc
  | fc :: fmt, argv, opt_args, arg_cnt, acc =>
    match argv with
    | [] =>
      if opt_args then ((arg_cnt : Int), acc, [])
      else (MOD_ERR_BAD_CMD, acc, [CmdDiag.insufficient_args])
    | a :: argv' =>
      if a = [] then
        (MOD_ERR_BAD_CMD, acc, [CmdDiag.invalid_empty_arg])
      else if fc = 'i' then
        let pr := strtol0 a
        if pr.2 ≠ [] then (MOD_ERR_ARG, acc, [CmdDiag.not_valid_integer a])
        else cmd_parse_args_aux fmt argv' false (arg_cnt + 1) (acc ++ [CmdArgVal.i pr.1])
      else if fc = 'u' then
        let pr := strtoul0 a
        if pr.2 ≠ [] then (MOD_ERR_ARG, acc, [CmdDiag.not_valid_unsigned a])
        else cmd_parse_args_aux fmt argv' false (arg_cnt + 1) (acc ++ [CmdArgVal.u pr.1])
      else if fc = 'p' then
        let pr := strtoul16 a
        if pr.2 ≠ [] then (MOD_ERR_ARG, acc, [CmdDiag.not_valid_pointer a])
        else cmd_parse_args_aux fmt argv' false (arg_cnt + 1) (acc ++ [CmdArgVal.p pr.1])
      else if fc = 's' then
        cmd_parse_args_aux fmt argv' false (arg_cnt + 1) (acc ++ [CmdArgVal.s a])
      else
        (MOD_ERR_ARG, acc, [CmdDiag.bad_arg_format fc])

/-- `cmd_parse_args` from cmd.c: returns the number of parsed arguments
(or a negative `MOD_ERR`), the parsed values, and any diagnostic. -/
def cmd_parse_args (argv : List (List Char)) (fmt : List Char) :
    Int × List CmdArgVal × List CmdDiag :=
  cmd_parse_args_aux fmt argv false 0 []

end Mcu

namespace Mcu

/-! ### Theorems about the tmr module -/

/-- C6 -- If no timer slot is `TMR_UNUSED`, `tmr_inst_get` returns
`MOD_ERR_RESOURCE` and leaves every slot (period, start time, state,
callback reference, user data) unchanged. -/
theorem tmr_inst_get_pool_exhausted (now ms : Nat) (tmrs : List TmrInst)
    (h : ∀ ti ∈ tmrs, ti.state ≠ TmrState.unused) :
    tmr_inst_get now ms tmrs = (MOD_ERR_RESOURCE, tmrs) := by
  have haux : tmr_inst_get_aux now ms tmrs = Option.none := by
    induction tmrs with
    | nil => rfl
    | cons ti rest ih =>
      have hti : ti.state ≠ TmrState.unused := h ti (by simp)
      have hrest : ∀ t ∈ rest, t.state ≠ TmrState.unused := fun t ht => h t (by simp [ht])
      simp [tmr_inst_get_aux, hti, ih hrest]
  simp [tmr_inst_get, haux]

/-- Witness for C6: a fully-occupied 5-slot pool. -/
theorem tmr_inst_get_pool_exhausted_witness :
    tmr_inst_get 100 7 (List.replicate 5 ⟨10, 0, TmrState.running, Option.none, 0⟩)
      = (MOD_ERR_RESOURCE, List.replicate 5 ⟨10, 0, TmrState.running, Option.none, 0⟩) :=
  tmr_inst_get_pool_exhausted 100 7 _ (by
    intro ti hti
    have := List.eq_of_mem_replicate hti
    subst this
    simp)

/-- C8 -- `tmr_inst_start(id, ms)`: `MOD_ERR_ARG` when `id` is outside
`[0, TMR_NUM_INST)`; `MOD_ERR_STATE` when the slot is `TMR_UNUSED`
(pool unchanged in both error cases); otherwise returns 0, with
`ms = 0` putting the slot in `TMR_STOPPED` (start time untouched) and
`ms > 0` putting it in `TMR_RUNNING` with period `ms` and start time
equal to the current clock value, every other slot unchanged. -/
theorem tmr_inst_start_spec (now : Nat) (tmr_id : Int) (ms : Nat)
    (tmrs : List TmrInst) (hlen : tmrs.length = TMR_NUM_INST) :
    ((tmr_id < 0 ∨ (TMR_NUM_INST : Int) ≤ tmr_id) →
      tmr_inst_start now tmr_id ms tmrs = (MOD_ERR_ARG, tmrs)) ∧
    (0 ≤ tmr_id → tmr_id < (TMR_NUM_INST : Int) →
      ((tmrs.getD tmr_id.toNat default).state = TmrState.unused →
        tmr_inst_start now tmr_id ms tmrs = (MOD_ERR_STATE, tmrs)) ∧
      ((tmrs.getD tmr_id.toNat default).state ≠ TmrState.unused →
        (tmr_inst_start now tmr_id ms tmrs).1 = 0 ∧
        (let ti := tmrs.getD tmr_id.toNat default
         let ti' := (tmr_inst_start now tmr_id ms tmrs).2.getD tmr_id.toNat default
         ti'.period_ms = ms ∧
         ti'.state = (if ms = 0 then TmrState.stopped else TmrState.running) ∧
         ti'.start_time = (if ms = 0 then ti.start_time else now) ∧
         ti'.cb_func = ti.cb_func ∧ ti'.cb_user_data = ti.cb_user_data) ∧
        (∀ k, k ≠ tmr_id.toNat →
          (tmr_inst_start now tmr_id ms tmrs).2.getD k default =
            tmrs.getD k default))) := by
  have hnum : (TMR_NUM_INST : Int) = 5 := by norm_num [TMR_NUM_INST]
  constructor
  · intro hout
    have hcond : ¬ (0 ≤ tmr_id ∧ tmr_id < (TMR_NUM_INST : Int)) := by
      rw [hnum] at hout ⊢
      omega
    rw [tmr_inst_start, if_neg hcond]
  · intro h0 h5
    have hin : 0 ≤ tmr_id ∧ tmr_id < (TMR_NUM_INST : Int) := ⟨h0, h5⟩
    have hidx : tmr_id.toNat < tmrs.length := by
      rw [hlen]
      show tmr_id.toNat < 5
      rw [hnum] at h5
      omega
    constructor
    · intro hunused
      rw [tmr_inst_start, if_pos hin]
      simp only [ne_eq, hunused, not_true_eq_false, if_false, ite_false]
    · intro hused
      have hstart : tmr_inst_start now tmr_id ms tmrs =
          (0, tmrs.set tmr_id.toNat
            { tmrs.getD tmr_id.toNat default with
              period_ms := ms,
              state := if ms = 0 then TmrState.stopped else TmrState.running,
              start_time := if ms = 0 then (tmrs.getD tmr_id.toNat default).start_time
                            else now }) := by
        rw [tmr_inst_start, if_pos hin]
        simp only [ne_eq, hused, not_false_eq_true, ite_true]
      refine ⟨by rw [hstart], ?_, ?_⟩
      · rw [hstart]
        simp only [List.getD_eq_getElem?_getD, List.getElem?_set_eq_of_lt _ hidx,
          Option.getD_some]
        simp
      · intro k hk
        rw [hstart]
        simp only [List.getD_eq_getElem?_getD]
        rw [List.getElem?_set_ne (by omega)]

/-- Witness for C8: out-of-range id, unused slot, and a successful start
on a concrete 5-slot pool. -/
theorem tmr_inst_start_spec_witness :
    (tmr_inst_start 42 7 10 (List.replicate 5 (default : TmrInst)) =
      (MOD_ERR_ARG, List.replicate 5 (default : TmrInst))) ∧
    (tmr_inst_start 42 2 10 (List.replicate 5 (default : TmrInst)) =
      (MOD_ERR_STATE, List.replicate 5 (default : TmrInst))) ∧
    ((tmr_inst_start 42 2 10
        (List.replicate 5 ⟨0, 0, TmrState.stopped, Option.none, 0⟩)).1 = 0 ∧
      ((tmr_inst_start 42 2 10
        (List.replicate 5 ⟨0, 0, TmrState.stopped, Option.none, 0⟩)).2.getD 2
          default).state = TmrState.running) := by
  refine ⟨?_, ?_, ?_, ?_⟩
  · exact (tmr_inst_start_spec 42 7 10 _ (by simp [TMR_NUM_INST])).1
      (by norm_num [TMR_NUM_INST])
  · exact ((tmr_inst_start_spec 42 2 10 _ (by simp [TMR_NUM_INST])).2
      (by norm_num) (by norm_num [TMR_NUM_INST])).1 (by simp [default])
  · exact (((tmr_inst_start_spec 42 2 10 _ (by simp [TMR_NUM_INST])).2
      (by norm_num) (by norm_num [TMR_NUM_INST])).2 (by simp)).1
  · have h := ((((tmr_inst_start_spec 42 2 10
      (List.replicate 5 ⟨0, 0, TmrState.stopped, Option.none, 0⟩)
      (by simp [TMR_NUM_INST])).2
      (by norm_num) (by norm_num [TMR_NUM_INST])).2 (by simp)).2).1
    simpa using h.2.1

/-- `tmr_run_aux` preserves the number of timer slots. -/
theorem tmr_run_aux_length (tmrs : List TmrInst) :
    ∀ idx now clocks, (tmr_run_aux idx now clocks tmrs).1.length = tmrs.length := by
  induction tmrs with
  | nil => intro idx now clocks; rfl
  | cons ti rest ih =>
    intro idx now clocks
    by_cases hc : ti.state = TmrState.running ∧ sub32 now ti.start_time ≥ ti.period_ms
    · cases hcb : ti.cb_func with
      | none => simp [tmr_run_aux, hc, hcb, ih]
      | some cb => simp [tmr_run_aux, hc, hcb, ih]
    · simp [tmr_run_aux, hc, ih]

/-- Servicing effect of one `tmr_run_aux` pass on a `TMR_RUNNING` slot
whose deadline is reached (against the clock value current at its own
turn) and whose callback requests a restart: the slot re-enters
`TMR_RUNNING` with its scheduled start advanced by exactly one period
(not reset to the current clock). -/
theorem tmr_run_aux_slot_restart (tmrs : List TmrInst) :
    ∀ idx now clocks j P s ud (f : Nat → Nat → TmrCbAction),
      j < tmrs.length →
      tmrs.getD j default = ⟨P, s, .running, some f, ud⟩ →
      f (idx + j) ud = .restart →
      sub32 (tmr_now_at now clocks tmrs j) s ≥ P →
      (tmr_run_aux idx now clocks tmrs).1.getD j default =
        ⟨P, add32 s P, .running, some f, ud⟩ := by
  induction tmrs with
  | nil =>
    intro idx now clocks j P s ud f hj _ _ _
    simp at hj
  | cons ti rest ih =>
    intro idx now clocks j P s ud f hj hslot hf hexp
    cases j with
    | zero =>
      rw [List.getD_cons_zero] at hslot
      subst hslot
      have hexp' : sub32 now s ≥ P := hexp
      have hf0 : f idx ud = TmrCbAction.restart := by simpa using hf
      simp [tmr_run_aux, hexp', hf0]
    | succ j =>
      rw [List.getD_cons_succ] at hslot
      have hjr : j < rest.length := by simpa using hj
      by_cases hc : ti.state = TmrState.running ∧ sub32 now ti.start_time ≥ ti.period_ms
      · cases hcb : ti.cb_func with
        | none =>
          have hexp' : sub32 (tmr_now_at now clocks rest j) s ≥ P := by
            simpa [tmr_now_at, hc, hcb] using hexp
          have hf' : f ((idx + 1) + j) ud = .restart := by
            have harith : (idx + 1) + j = idx + (j + 1) := by omega
            rw [harith]
            exact hf
          simpa [tmr_run_aux, hc, hcb] using
            ih (idx + 1) now clocks j P s ud f hjr hslot hf' hexp'
        | some cb =>
          have hexp' : sub32 (tmr_now_at (clocks.headD now) clocks.tail rest j) s ≥ P := by
            simpa [tmr_now_at, hc, hcb] using hexp
          have hf' : f ((idx + 1) + j) ud = .restart := by
            have harith : (idx + 1) + j = idx + (j + 1) := by omega
            rw [harith]
            exact hf
          simpa [tmr_run_aux, hc, hcb] using
            ih (idx + 1) (clocks.headD now) clocks.tail j P s ud f hjr hslot hf' hexp'
      · have hexp' : sub32 (tmr_now_at now clocks rest j) s ≥ P := by
          simpa [tmr_now_at, hc] using hexp
        have hf' : f ((idx + 1) + j) ud = .restart := by
          have harith : (idx + 1) + j = idx + (j + 1) := by omega
          rw [harith]
          exact hf
        simpa [tmr_run_aux, hc] using
          ih (idx + 1) now clocks j P s ud f hjr hslot hf' hexp'

/-- C3 -- Drift-free periodic restart.  Over any sequence of `tmr_run`
invocations (arbitrary entry clocks and arbitrary clock delays incurred
while callbacks of this or other timers ran, encoded in each pass's
clock-reading list), if slot `j` holds a running timer with period `P`,
start `start0` and an always-restart callback, and every pass actually
services it (the pass is not skipped by the fast exit, and the elapsed
check against the clock value current at slot `j`'s own turn passes),
then after `k` passes (for every `k ≤ N`) the slot is again
`TMR_RUNNING` with scheduled start exactly `(start0 + k*P) mod 2^32` --
advanced by one period per service, never reset to "now". -/
theorem tmr_restart_drift_free (passes : List (Nat × List Nat)) :
    ∀ (last0 : Nat) (tmrs : List TmrInst) (j P s0 ud : Nat)
      (f : Nat → Nat → TmrCbAction),
      j < tmrs.length →
      tmrs.getD j default = ⟨P, s0, .running, some f, ud⟩ →
      s0 < U32 →
      (∀ a b, f a b = .restart) →
      (∀ k, (hk : k < passes.length) →
        (passes.get ⟨k, hk⟩).1 ≠ (tmr_run_passes last0 tmrs (passes.take k)).1 ∧
        sub32 (tmr_now_at (passes.get ⟨k, hk⟩).1 (passes.get ⟨k, hk⟩).2
                 (tmr_run_passes last0 tmrs (passes.take k)).2 j)
              ((tmr_run_passes last0 tmrs (passes.take k)).2.getD j default).start_time
          ≥ P) →
      ∀ k, k ≤ passes.length →
        (tmr_run_passes last0 tmrs (passes.take k)).2.getD j default =
          ⟨P, (s0 + k * P) % U32, .running, some f, ud⟩ := by
  induction passes with
  | nil =>
    intro last0 tmrs j P s0 ud f hj hslot hs0 hf _ k hk
    have hk0 : k = 0 := by simpa using hk
    subst hk0
    simpa [tmr_run_passes, Nat.mod_eq_of_lt hs0] using hslot
  | cons p rest ih =>
    intro last0 tmrs j P s0 ud f hj hslot hs0 hf hserv k hk
    cases k with
    | zero =>
      simpa [tmr_run_passes, Nat.mod_eq_of_lt hs0] using hslot
    | succ k =>
      obtain ⟨now, clocks⟩ := p
      have h0 := hserv 0 (by simp)
      simp only [List.take_zero, tmr_run_passes, List.get] at h0
      have hne : now ≠ last0 := h0.1
      have hexp : sub32 (tmr_now_at now clocks tmrs j) s0 ≥ P := by
        have := h0.2
        rwa [hslot] at this
      -- the state after the first pass
      have hrun : tmr_run last0 now tmrs clocks =
          (0, now, (tmr_run_aux 0 now clocks tmrs).1) := by
        rw [tmr_run, if_neg hne]
      have hslot1 : (tmr_run_aux 0 now clocks tmrs).1.getD j default =
          ⟨P, add32 s0 P, .running, some f, ud⟩ := by
        exact tmr_run_aux_slot_restart tmrs 0 now clocks j P s0 ud f hj hslot
          (by simpa using hf j ud) hexp
      have hlen1 : j < (tmr_run_aux 0 now clocks tmrs).1.length := by
        rw [tmr_run_aux_length]
        exact hj
      have hfold : ∀ q : List (Nat × List Nat),
          tmr_run_passes last0 tmrs ((now, clocks) :: q) =
            tmr_run_passes now (tmr_run_aux 0 now clocks tmrs).1 q := by
        intro q
        simp [tmr_run_passes, hrun]
      have hserv' : ∀ m, (hm : m < rest.length) →
          (rest.get ⟨m, hm⟩).1 ≠
            (tmr_run_passes now (tmr_run_aux 0 now clocks tmrs).1 (rest.take m)).1 ∧
          sub32 (tmr_now_at (rest.get ⟨m, hm⟩).1 (rest.get ⟨m, hm⟩).2
                   (tmr_run_passes now (tmr_run_aux 0 now clocks tmrs).1 (rest.take m)).2 j)
                ((tmr_run_passes now (tmr_run_aux 0 now clocks tmrs).1
                    (rest.take m)).2.getD j default).start_time ≥ P := by
        intro m hm
        have := hserv (m + 1) (by simpa using Nat.succ_lt_succ hm)
        simpa [List.take_succ_cons, hfold] using this
      have hadd : add32 s0 P < U32 := by
        have : U32 ≠ 0 := by norm_num [U32]
        exact Nat.mod_lt _ (by norm_num [U32])
      have := ih now (tmr_run_aux 0 now clocks tmrs).1 j P (add32 s0 P) ud f
        hlen1 hslot1 hadd hf hserv' k (by simpa using Nat.succ_le_succ_iff.mp hk)
      rw [List.take_succ_cons, hfold, this]
      have harith : (add32 s0 P + k * P) % U32 = (s0 + (k + 1) * P) % U32 := by
        rw [add32, Nat.mod_add_mod]
        congr 1
        ring
      rw [harith]

/-- Witness for C3: a period-5 always-restart timer serviced by two
`tmr_run` passes (entry clocks 5 and 12, i.e. with jitter): scheduled
starts advance to 5 then 10 = start0 + 2*P, never reset to "now". -/
theorem tmr_restart_drift_free_witness :
    ((tmr_run_passes 0 [⟨5, 0, .running, some (fun _ _ => TmrCbAction.restart), 3⟩]
        (([(5, ([] : List Nat)), (12, [])]).take 2)).2.getD 0 default).start_time
      = 10 ∧
    ((tmr_run_passes 0 [⟨5, 0, .running, some (fun _ _ => TmrCbAction.restart), 3⟩]
        (([(5, ([] : List Nat)), (12, [])]).take 1)).2.getD 0 default).start_time
      = 5 := by
  have h2 := tmr_restart_drift_free [(5, ([] : List Nat)), (12, [])] 0
    [⟨5, 0, .running, some (fun _ _ => TmrCbAction.restart), 3⟩] 0 5 0 3
    (fun _ _ => TmrCbAction.restart) (by simp) rfl (by norm_num [U32])
    (fun _ _ => rfl) (by decide) 2 (by norm_num)
  have h1 := tmr_restart_drift_free [(5, ([] : List Nat)), (12, [])] 0
    [⟨5, 0, .running, some (fun _ _ => TmrCbAction.restart), 3⟩] 0 5 0 3
    (fun _ _ => TmrCbAction.restart) (by simp) rfl (by norm_num [U32])
    (fun _ _ => rfl) (by decide) 1 (by norm_num)
  rw [h2, h1]
  norm_num [U32]

/-- C10 -- `tmr_run` returns 0 immediately, leaving every timer slot
(and its recorded `last_ms`) unchanged, whenever the millisecond clock
equals the value recorded on its previous invocation, with no
constraint on the slots (in particular even if a `TMR_RUNNING` slot's
deadline has been reached). -/
theorem tmr_run_fast_exit (last_ms now_ms : Nat) (tmrs : List TmrInst)
    (clocks : List Nat) (h : now_ms = last_ms) :
    tmr_run last_ms now_ms tmrs clocks = (0, last_ms, tmrs) := by
  simp [tmr_run, h]

/-- Witness for C10: `last_ms = now_ms = 0` (the static variable's
initial value) with a `TMR_RUNNING` timer whose deadline is reached
(period 0, elapsed 0 ≥ 0): the slot is left untouched. -/
theorem tmr_run_fast_exit_witness :
    tmr_run 0 0 [⟨0, 0, TmrState.running, Option.none, 7⟩] [] =
      (0, 0, [⟨0, 0, TmrState.running, Option.none, 7⟩]) :=
  tmr_run_fast_exit 0 0 _ _ rfl

/-! ### Ring-buffer lemmas -/

/-- A non-full `ring_put` stores the byte at the put index and advances
`put` with wraparound. -/
theorem ring_put_not_full (C : Nat) (r : Ring) (c : Nat) (hwf : ring_wf C r)
    (h : ring_count C r < C - 1) :
    ring_put C r c =
      (true,
       { r with
         buf := r.buf.set r.put_idx c,
         put_idx := (if r.put_idx + 1 ≥ C then 0 else r.put_idx + 1) }) := by
  obtain ⟨hg, hp, hb⟩ := hwf
  have hne : (if r.put_idx + 1 ≥ C then 0 else r.put_idx + 1) ≠ r.get_idx := by
    unfold ring_count at h
    split_ifs at h ⊢ <;> omega
  simp [ring_put, hne]

/-- A full `ring_put` drops the byte and leaves the ring unchanged. -/
theorem ring_put_full (C : Nat) (r : Ring) (c : Nat)
    (h : (if r.put_idx + 1 ≥ C then 0 else r.put_idx + 1) = r.get_idx) :
    ring_put C r c = (false, r) := by
  simp [ring_put, h]

/-- `ring_get` on an empty ring yields nothing. -/
theorem ring_get_empty (C : Nat) (r : Ring) (h : r.get_idx = r.put_idx) :
    ring_get C r = (Option.none, r) := by
  simp [ring_get, h]

/-- `ring_get` on a non-empty ring reads the get slot and advances
`get` with wraparound. -/
theorem ring_get_nonempty (C : Nat) (r : Ring) (h : r.get_idx ≠ r.put_idx) :
    ring_get C r =
      (some (r.buf.getD r.get_idx 0),
       { r with get_idx := (if r.get_idx + 1 ≥ C then 0 else r.get_idx + 1) }) := by
  simp [ring_get, h]

/-- The element count is zero exactly on an empty ring. -/
theorem ring_count_eq_zero (C : Nat) (r : Ring) (hwf : ring_wf C r) :
    ring_count C r = 0 ↔ r.get_idx = r.put_idx := by
  obtain ⟨hg, hp, _⟩ := hwf
  unfold ring_count
  split_ifs <;> omega

/-- `ring_put` preserves well-formedness. -/
theorem ring_wf_put (C : Nat) (r : Ring) (c : Nat) (hC : 2 ≤ C)
    (hwf : ring_wf C r) : ring_wf C (ring_put C r c).2 := by
  obtain ⟨hg, hp, hb⟩ := hwf
  by_cases h : (if r.put_idx + 1 ≥ C then 0 else r.put_idx + 1) = r.get_idx
  · rw [ring_put_full C r c h]
    exact ⟨hg, hp, hb⟩
  · have heq : ring_put C r c =
        (true,
         { r with
           buf := r.buf.set r.put_idx c,
           put_idx := (if r.put_idx + 1 ≥ C then 0 else r.put_idx + 1) }) := by
      simp [ring_put, h]
    rw [heq]
    refine ⟨hg, ?_, by simpa using hb⟩
    dsimp only
    split_ifs <;> omega

/-- `ring_get` preserves well-formedness. -/
theorem ring_wf_get (C : Nat) (r : Ring) (hC : 2 ≤ C)
    (hwf : ring_wf C r) : ring_wf C (ring_get C r).2 := by
  obtain ⟨hg, hp, hb⟩ := hwf
  by_cases h : r.get_idx = r.put_idx
  · rw [ring_get_empty C r h]
    exact ⟨hg, hp, hb⟩
  · rw [ring_get_nonempty C r h]
    refine ⟨?_, hp, hb⟩
    dsimp only
    split_ifs <;> omega

/-- A non-full `ring_put` increments the element count. -/
theorem ring_count_put (C : Nat) (r : Ring) (c : Nat) (hwf : ring_wf C r)
    (h : ring_count C r < C - 1) :
    ring_count C (ring_put C r c).2 = ring_count C r + 1 := by
  have hwf' := hwf
  obtain ⟨hg, hp, hb⟩ := hwf'
  rw [ring_put_not_full C r c hwf h]
  dsimp only
  unfold ring_count at h ⊢
  dsimp only
  split_ifs at h ⊢ <;> omega

/-- A non-empty `ring_get` decrements the element count. -/
theorem ring_count_get (C : Nat) (r : Ring) (hwf : ring_wf C r)
    (h : r.get_idx ≠ r.put_idx) :
    ring_count C (ring_get C r).2 = ring_count C r - 1 := by
  have hwf' := hwf
  obtain ⟨hg, hp, hb⟩ := hwf'
  rw [ring_get_nonempty C r h]
  dsimp only
  unfold ring_count
  dsimp only
  split_ifs <;> omega

/-- Producer/consumer commutation: on a non-empty, non-full ring, a
`ring_get` after a `ring_put` reads the same byte the `ring_get` would
have read first, and the two index updates commute. -/
theorem ring_get_put_swap (C : Nat) (r : Ring) (c : Nat) (hwf : ring_wf C r)
    (hne : r.get_idx ≠ r.put_idx) (hnf : ring_count C r < C - 1) :
    ring_get C (ring_put C r c).2 =
      (some (r.buf.getD r.get_idx 0), (ring_put C (ring_get C r).2 c).2) := by
  have hwf' := hwf
  obtain ⟨hg, hp, hb⟩ := hwf'
  have hcount := hnf
  unfold ring_count at hcount
  have hne1 : ¬ r.get_idx = (if r.put_idx + 1 ≥ C then 0 else r.put_idx + 1) := by
    by_cases hcp : r.put_idx + 1 ≥ C
    · rw [if_pos hcp]
      split_ifs at hcount <;> omega
    · rw [if_neg hcp]
      split_ifs at hcount <;> omega
  have hnf1 : ¬ (if r.put_idx + 1 ≥ C then 0 else r.put_idx + 1) =
      (if r.get_idx + 1 ≥ C then 0 else r.get_idx + 1) := by
    by_cases hcp : r.put_idx + 1 ≥ C
    · rw [if_pos hcp]
      by_cases hcg : r.get_idx + 1 ≥ C
      · rw [if_pos hcg]
        omega
      · rw [if_neg hcg]
        omega
    · rw [if_neg hcp]
      by_cases hcg : r.get_idx + 1 ≥ C
      · rw [if_pos hcg]
        omega
      · rw [if_neg hcg]
        omega
  have hset : (r.buf.set r.put_idx c)[r.get_idx]? = r.buf[r.get_idx]? :=
    List.getElem?_set_ne (by omega)
  rw [ring_put_not_full C r c hwf hnf]
  simp [ring_get, ring_put, hne, hne1, hnf1, hset]

/-- Dequeue-append: draining a ring after one additional successful
`ring_put` yields the old contents followed by the new byte. -/
theorem ring_get_n_put (C : Nat) (hC : 2 ≤ C) :
    ∀ (n : Nat) (r : Ring) (c : Nat), ring_wf C r → ring_count C r = n →
      n < C - 1 →
      (ring_get_n C (ring_put C r c).2 (n + 1)).1 =
        (ring_get_n C r n).1 ++ [c] := by
  intro n
  induction n with
  | zero =>
    intro r c hwf h0 hlt
    have hgp : r.get_idx = r.put_idx := (ring_count_eq_zero C r hwf).mp h0
    obtain ⟨hg, hp, hb⟩ := hwf
    have hne : ¬ r.get_idx = (if r.put_idx + 1 ≥ C then 0 else r.put_idx + 1) := by
      by_cases hcp : r.put_idx + 1 ≥ C
      · rw [if_pos hcp]
        omega
      · rw [if_neg hcp]
        omega
    have hset : (r.buf.set r.put_idx c)[r.get_idx]? = some c := by
      rw [hgp]
      exact @List.getElem?_set_eq_of_lt _ c r.put_idx r.buf (by omega)
    rw [ring_put_not_full C r c ⟨hg, hp, hb⟩ (by omega)]
    simp [ring_get_n, ring_get, hne, hset]
  | succ n ih =>
    intro r c hwf hcnt hlt
    have hne : r.get_idx ≠ r.put_idx := by
      intro hgp
      rw [(ring_count_eq_zero C r hwf).mpr hgp] at hcnt
      omega
    have hswap := ring_get_put_swap C r c hwf hne (by omega)
    have hstep : ring_get_n C (ring_put C r c).2 (n + 1 + 1) =
        (r.buf.getD r.get_idx 0 ::
          (ring_get_n C (ring_put C (ring_get C r).2 c).2 (n + 1)).1,
         (ring_get_n C (ring_put C (ring_get C r).2 c).2 (n + 1)).2) := by
      rw [ring_get_n, hswap]
    have hwf1 := ring_wf_get C r hC hwf
    have hcnt1 : ring_count C (ring_get C r).2 = n := by
      rw [ring_count_get C r hwf hne, hcnt]
      omega
    have hih := ih (ring_get C r).2 c hwf1 hcnt1 (by omega)
    rw [hstep]
    have hrhs : ring_get_n C r (n + 1) =
        (r.buf.getD r.get_idx 0 :: (ring_get_n C (ring_get C r).2 n).1,
         (ring_get_n C (ring_get C r).2 n).2) := by
      conv_lhs => rw [ring_get_n, ring_get_nonempty C r hne]
      rw [ring_get_nonempty C r hne]
    simp only [hrhs, hih]
    simp

/-- `ring_put` with a false success flag (full ring) leaves the ring
unchanged. -/
theorem ring_put_fail_eq (C : Nat) (r : Ring) (c : Nat)
    (h : (ring_put C r c).1 = false) : (ring_put C r c).2 = r := by
  simp only [ring_put] at h ⊢
  split_ifs at h ⊢ <;> simp_all

/-- Enqueueing a byte list then draining everything yields the old
contents followed by the list. -/
theorem ring_get_n_put_list (C : Nat) (hC : 2 ≤ C) :
    ∀ (cs : List Nat) (r : Ring), ring_wf C r →
      ring_count C r + cs.length ≤ C - 1 →
      (ring_get_n C (ring_put_list C r cs) (ring_count C r + cs.length)).1 =
        (ring_get_n C r (ring_count C r)).1 ++ cs := by
  intro cs
  induction cs with
  | nil =>
    intro r hwf hle
    simp [ring_put_list]
  | cons c cs ih =>
    intro r hwf hle
    simp only [List.length_cons] at hle
    have hnf : ring_count C r < C - 1 := by omega
    have hwf1 : ring_wf C (ring_put C r c).2 := ring_wf_put C r c hC hwf
    have hcnt1 := ring_count_put C r c hwf hnf
    have hplist : ring_put_list C r (c :: cs) =
        ring_put_list C (ring_put C r c).2 cs := by
      simp [ring_put_list]
    have hih := ih (ring_put C r c).2 hwf1 (by omega)
    rw [hcnt1] at hih
    have harith : ring_count C r + (c :: cs).length =
        ring_count C r + 1 + cs.length := by
      simp
      omega
    rw [hplist, harith, hih]
    rw [ring_get_n_put C hC (ring_count C r) r c hwf rfl hnf]
    simp

/-- Enqueueing a list onto a ring with enough room preserves
well-formedness and adds the list's length to the element count. -/
theorem ring_count_put_list (C : Nat) (hC : 2 ≤ C) :
    ∀ (cs : List Nat) (r : Ring), ring_wf C r →
      ring_count C r + cs.length ≤ C - 1 →
      ring_wf C (ring_put_list C r cs) ∧
      ring_count C (ring_put_list C r cs) = ring_count C r + cs.length := by
  intro cs
  induction cs with
  | nil =>
    intro r hwf _
    exact ⟨hwf, by simp [ring_put_list]⟩
  | cons c cs ih =>
    intro r hwf hle
    simp only [List.length_cons] at hle
    have hnf : ring_count C r < C - 1 := by omega
    have hwf1 : ring_wf C (ring_put C r c).2 := ring_wf_put C r c hC hwf
    have hcnt1 := ring_count_put C r c hwf hnf
    have hplist : ring_put_list C r (c :: cs) =
        ring_put_list C (ring_put C r c).2 cs := by
      simp [ring_put_list]
    have hih := ih (ring_put C r c).2 hwf1 (by omega)
    rw [hplist]
    refine ⟨hih.1, ?_⟩
    rw [hih.2, hcnt1]
    simp
    omega

/-- Draining `n ≤ count` elements preserves well-formedness and leaves
`count - n` elements. -/
theorem ring_get_n_count (C : Nat) (hC : 2 ≤ C) :
    ∀ (n : Nat) (r : Ring), ring_wf C r → n ≤ ring_count C r →
      ring_wf C (ring_get_n C r n).2 ∧
      ring_count C (ring_get_n C r n).2 = ring_count C r - n := by
  intro n
  induction n with
  | zero =>
    intro r hwf _
    exact ⟨hwf, by simp [ring_get_n]⟩
  | succ n ih =>
    intro r hwf hn
    have hne : r.get_idx ≠ r.put_idx := by
      intro h
      rw [(ring_count_eq_zero C r hwf).mpr h] at hn
      omega
    have hget := ring_get_nonempty C r hne
    have hwf1 := ring_wf_get C r hC hwf
    have hcnt1 := ring_count_get C r hwf hne
    have hih := ih (ring_get C r).2 hwf1 (by omega)
    constructor
    · simpa [ring_get_n, hget] using hih.1
    · have h2 := hih.2
      have h3 := hcnt1
      simp only [hget] at h2 h3
      simp only [ring_get_n, hget]
      rw [h2, h3]
      omega

/-- Round trip on an empty ring at any index offset: enqueue
`K ≤ C - 1` bytes, drain `K` times; the bytes come back in order and
the ring ends empty (`put = get`). -/
theorem ring_roundtrip (C : Nat) (hC : 2 ≤ C) (r : Ring) (cs : List Nat)
    (hwf : ring_wf C r) (hempty : r.get_idx = r.put_idx)
    (hK : cs.length ≤ C - 1) :
    (ring_get_n C (ring_put_list C r cs) cs.length).1 = cs ∧
    (ring_get_n C (ring_put_list C r cs) cs.length).2.get_idx =
      (ring_get_n C (ring_put_list C r cs) cs.length).2.put_idx := by
  have h0 : ring_count C r = 0 := (ring_count_eq_zero C r hwf).mpr hempty
  constructor
  · have h1 := ring_get_n_put_list C hC cs r hwf (by omega)
    rw [h0] at h1
    simpa [ring_get_n] using h1
  · have h2 := ring_count_put_list C hC cs r hwf (by omega)
    have h3 := ring_get_n_count C hC cs.length (ring_put_list C r cs) h2.1
      (by rw [h2.2, h0]; omega)
    have h4 : ring_count C (ring_get_n C (ring_put_list C r cs) cs.length).2 = 0 := by
      rw [h3.2, h2.2, h0]
      omega
    exact (ring_count_eq_zero C _ h3.1).mp h4

/-! ### Bridging the ring-buffer algorithm to the ttys entry points -/

/-- One `ttys_putc` advances the addressed instance's transmit ring by
one `ring_put` step (byte dropped on overrun included) and preserves the
shape of `ttys_states`. -/
theorem ttys_putc_tx (sys : TtysSystem) (id c : Nat)
    (hid : id < TTYS_NUM_INSTANCES)
    (hlen : sys.states.length = TTYS_NUM_INSTANCES) :
    (ttys_putc id c sys).2.states.getD id default =
      { sys.states.getD id default with
        tx := (ring_put TTYS_TX_BUF_SIZE (sys.states.getD id default).tx c).2 } ∧
    (ttys_putc id c sys).2.states.length = TTYS_NUM_INSTANCES := by
  have hnid : ¬ id ≥ TTYS_NUM_INSTANCES := by omega
  have hidlen : id < sys.states.length := by omega
  cases hpr : (ring_put TTYS_TX_BUF_SIZE (sys.states.getD id default).tx c).1 with
  | false =>
    have hfix := ring_put_fail_eq TTYS_TX_BUF_SIZE
      (sys.states.getD id default).tx c hpr
    constructor
    · simp only [ttys_putc, if_neg hnid, hpr, Bool.false_eq_true, if_false, hfix]
    · simp only [ttys_putc, if_neg hnid, hpr, Bool.false_eq_true, if_false]
      exact hlen
  | true =>
    constructor
    · simp only [ttys_putc, if_neg hnid, hpr, if_true]
      simp only [List.getD_eq_getElem?_getD, List.getElem?_set_self hidlen]
      rfl
    · simp only [ttys_putc, if_neg hnid, hpr, if_true]
      simp [hlen]

/-- Iterated `ttys_putc` drives the transmit ring through
`ring_put_list`. -/
theorem ttys_putc_list_tx (id : Nat) (hid : id < TTYS_NUM_INSTANCES) :
    ∀ (cs : List Nat) (sys : TtysSystem),
      sys.states.length = TTYS_NUM_INSTANCES →
      ((ttys_putc_list id cs sys).states.getD id default).tx =
        ring_put_list TTYS_TX_BUF_SIZE ((sys.states.getD id default).tx) cs ∧
      (ttys_putc_list id cs sys).states.length = TTYS_NUM_INSTANCES := by
  intro cs
  induction cs with
  | nil =>
    intro sys hlen
    exact ⟨rfl, hlen⟩
  | cons c cs ih =>
    intro sys hlen
    have h1 := ttys_putc_tx sys id c hid hlen
    have hfold : ttys_putc_list id (c :: cs) sys =
        ttys_putc_list id cs (ttys_putc id c sys).2 := by
      simp [ttys_putc_list]
    have hplist : ring_put_list TTYS_TX_BUF_SIZE
          ((sys.states.getD id default).tx) (c :: cs) =
        ring_put_list TTYS_TX_BUF_SIZE
          ((ring_put TTYS_TX_BUF_SIZE ((sys.states.getD id default).tx) c).2) cs := by
      simp [ring_put_list]
    have hih := ih (ttys_putc id c sys).2 h1.2
    rw [hfold, hplist]
    refine ⟨?_, hih.2⟩
    rw [hih.1, h1.1]

/-- A TXE-only `ttys_interrupt` on an instance with an empty transmit
ring just disables the interrupt: no state change, nothing sent. -/
theorem ttys_interrupt_txe_empty (sys : TtysSystem) (id : Nat)
    (hid : id < TTYS_NUM_INSTANCES)
    (hne : (sys.states.getD id default).tx.get_idx =
      (sys.states.getD id default).tx.put_idx) :
    ttys_interrupt id ⟨false, true, false, false, false, false⟩ 0 sys =
      (sys, Option.none) := by
  have hnid : ¬ id ≥ TTYS_NUM_INSTANCES := by omega
  have hring := ring_get_empty TTYS_TX_BUF_SIZE
    ((sys.states.getD id default).tx) hne
  simp only [List.getD_eq_getElem?_getD] at hring
  simp [ttys_interrupt, hnid, hring]

/-- A TXE-only `ttys_interrupt` on an instance with a non-empty
transmit ring writes the next byte to the data register and advances the
ring by one `ring_get` step. -/
theorem ttys_interrupt_txe_nonempty (sys : TtysSystem) (id : Nat)
    (hid : id < TTYS_NUM_INSTANCES)
    (hne : (sys.states.getD id default).tx.get_idx ≠
      (sys.states.getD id default).tx.put_idx) :
    ttys_interrupt id ⟨false, true, false, false, false, false⟩ 0 sys =
      ({ sys with
         states := sys.states.set id
           { sys.states.getD id default with
             tx := (ring_get TTYS_TX_BUF_SIZE (sys.states.getD id default).tx).2 } },
       some ((sys.states.getD id default).tx.buf.getD
         (sys.states.getD id default).tx.get_idx 0)) := by
  have hnid : ¬ id ≥ TTYS_NUM_INSTANCES := by omega
  have hring := ring_get_nonempty TTYS_TX_BUF_SIZE
    ((sys.states.getD id default).tx) hne
  simp only [List.getD_eq_getElem?_getD] at hring
  simp [ttys_interrupt, hnid, hring, List.getD_eq_getElem?_getD]

/-- Iterated TXE interrupts drain the transmit ring exactly as
`ring_get_n` does, emitting the same bytes. -/
theorem ttys_txe_bridge (id : Nat) (hid : id < TTYS_NUM_INSTANCES) :
    ∀ (n : Nat) (sys : TtysSystem),
      sys.states.length = TTYS_NUM_INSTANCES →
      (ttys_txe_n id sys n).1 =
        (ring_get_n TTYS_TX_BUF_SIZE ((sys.states.getD id default).tx) n).1 ∧
      ((ttys_txe_n id sys n).2.states.getD id default).tx =
        (ring_get_n TTYS_TX_BUF_SIZE ((sys.states.getD id default).tx) n).2 ∧
      (ttys_txe_n id sys n).2.states.length = TTYS_NUM_INSTANCES := by
  intro n
  induction n with
  | zero =>
    intro sys hlen
    exact ⟨rfl, rfl, hlen⟩
  | succ n ih =>
    intro sys hlen
    have hidlen : id < sys.states.length := by omega
    by_cases hne : (sys.states.getD id default).tx.get_idx =
        (sys.states.getD id default).tx.put_idx
    · have hint := ttys_interrupt_txe_empty sys id hid hne
      have hring := ring_get_empty TTYS_TX_BUF_SIZE
        ((sys.states.getD id default).tx) hne
      simp only [List.getD_eq_getElem?_getD] at hring
      refine ⟨?_, ?_, ?_⟩ <;>
        simp [ttys_txe_n, hint, ring_get_n, hring, hlen, List.getD_eq_getElem?_getD]
    · have hint := ttys_interrupt_txe_nonempty sys id hid hne
      have hring := ring_get_nonempty TTYS_TX_BUF_SIZE
        ((sys.states.getD id default).tx) hne
      have hlen' : (ttys_interrupt id
          ⟨false, true, false, false, false, false⟩ 0 sys).1.states.length =
          TTYS_NUM_INSTANCES := by
        rw [hint]
        simp [hlen]
      have hproj : ((ttys_interrupt id
          ⟨false, true, false, false, false, false⟩ 0 sys).1.states.getD id default).tx =
          (ring_get TTYS_TX_BUF_SIZE (sys.states.getD id default).tx).2 := by
        rw [hint]
        simp only [List.getD_eq_getElem?_getD, List.getElem?_set_self hidlen]
        rfl
      have hih := ih (ttys_interrupt id
        ⟨false, true, false, false, false, false⟩ 0 sys).1 hlen'
      have hstep : ttys_txe_n id sys (n + 1) =
          (((sys.states.getD id default).tx.buf.getD
              (sys.states.getD id default).tx.get_idx 0) ::
            (ttys_txe_n id (ttys_interrupt id
              ⟨false, true, false, false, false, false⟩ 0 sys).1 n).1,
           (ttys_txe_n id (ttys_interrupt id
              ⟨false, true, false, false, false, false⟩ 0 sys).1 n).2) := by
        conv_lhs => rw [ttys_txe_n, hint]
        rw [hint]
      have hrstep : ring_get_n TTYS_TX_BUF_SIZE ((sys.states.getD id default).tx) (n + 1) =
          (((sys.states.getD id default).tx.buf.getD
              (sys.states.getD id default).tx.get_idx 0) ::
            (ring_get_n TTYS_TX_BUF_SIZE
              (ring_get TTYS_TX_BUF_SIZE (sys.states.getD id default).tx).2 n).1,
           (ring_get_n TTYS_TX_BUF_SIZE
              (ring_get TTYS_TX_BUF_SIZE (sys.states.getD id default).tx).2 n).2) := by
        conv_lhs => rw [ring_get_n, hring]
        rw [hring]
      rw [hstep, hrstep]
      rw [hproj] at hih
      exact ⟨by rw [hih.1], by rw [hih.2.1], hih.2.2⟩

/-- An RXNE-only `ttys_interrupt` advances the addressed instance's
receive ring by one `ring_put` step with the incoming byte (dropped on
overrun, with the shared counter bumped) and preserves the shape of
`ttys_states`. -/
theorem ttys_rxne_rx (sys : TtysSystem) (id c : Nat)
    (hid : id < TTYS_NUM_INSTANCES)
    (hlen : sys.states.length = TTYS_NUM_INSTANCES) :
    (ttys_interrupt id ⟨true, false, false, false, false, false⟩ c sys).1.states.getD id default =
      { sys.states.getD id default with
        rx := (ring_put TTYS_RX_BUF_SIZE (sys.states.getD id default).rx c).2 } ∧
    (ttys_interrupt id ⟨true, false, false, false, false, false⟩ c sys).1.states.length =
      TTYS_NUM_INSTANCES := by
  have hnid : ¬ id ≥ TTYS_NUM_INSTANCES := by omega
  have hidlen : id < sys.states.length := by omega
  have hset : ∀ st : TtysState, (sys.states.set id st).getD id default = st := by
    intro st
    rw [List.getD_eq_getElem?_getD, List.getElem?_set_self hidlen]
    rfl
  cases hpr : (ring_put TTYS_RX_BUF_SIZE (sys.states.getD id default).rx c).1 with
  | false =>
    have hfix := ring_put_fail_eq TTYS_RX_BUF_SIZE
      (sys.states.getD id default).rx c hpr
    constructor
    · simp [ttys_interrupt, hnid, hpr, hfix, -List.getD_eq_getElem?_getD]
    · simp [ttys_interrupt, hnid, hpr, hlen, -List.getD_eq_getElem?_getD]
  | true =>
    constructor
    · simp [ttys_interrupt, hnid, hpr, hset, -List.getD_eq_getElem?_getD]
    · simp [ttys_interrupt, hnid, hpr, hlen, -List.getD_eq_getElem?_getD]

/-- Iterated RXNE interrupts drive the receive ring through
`ring_put_list`. -/
theorem ttys_rxne_list_rx (id : Nat) (hid : id < TTYS_NUM_INSTANCES) :
    ∀ (cs : List Nat) (sys : TtysSystem),
      sys.states.length = TTYS_NUM_INSTANCES →
      ((ttys_rxne_list id cs sys).states.getD id default).rx =
        ring_put_list TTYS_RX_BUF_SIZE ((sys.states.getD id default).rx) cs ∧
      (ttys_rxne_list id cs sys).states.length = TTYS_NUM_INSTANCES := by
  intro cs
  induction cs with
  | nil =>
    intro sys hlen
    exact ⟨rfl, hlen⟩
  | cons c cs ih =>
    intro sys hlen
    have h1 := ttys_rxne_rx sys id c hid hlen
    have hfold : ttys_rxne_list id (c :: cs) sys =
        ttys_rxne_list id cs
          (ttys_interrupt id ⟨true, false, false, false, false, false⟩ c sys).1 := by
      simp [ttys_rxne_list]
    have hplist : ring_put_list TTYS_RX_BUF_SIZE
          ((sys.states.getD id default).rx) (c :: cs) =
        ring_put_list TTYS_RX_BUF_SIZE
          ((ring_put TTYS_RX_BUF_SIZE ((sys.states.getD id default).rx) c).2) cs := by
      simp [ring_put_list]
    have hih := ih (ttys_interrupt id ⟨true, false, false, false, false, false⟩ c sys).1 h1.2
    rw [hfold, hplist]
    refine ⟨?_, hih.2⟩
    rw [hih.1, h1.1]

/-- Iterated `ttys_getc` drains the receive ring exactly as
`ring_get_n` does, returning the same bytes. -/
theorem ttys_getc_bridge (id : Nat) (hid : id < TTYS_NUM_INSTANCES) :
    ∀ (n : Nat) (sys : TtysSystem),
      sys.states.length = TTYS_NUM_INSTANCES →
      (ttys_getc_n id sys n).1 =
        (ring_get_n TTYS_RX_BUF_SIZE ((sys.states.getD id default).rx) n).1 ∧
      ((ttys_getc_n id sys n).2.states.getD id default).rx =
        (ring_get_n TTYS_RX_BUF_SIZE ((sys.states.getD id default).rx) n).2 ∧
      (ttys_getc_n id sys n).2.states.length = TTYS_NUM_INSTANCES := by
  intro n
  induction n with
  | zero =>
    intro sys hlen
    exact ⟨rfl, rfl, hlen⟩
  | succ n ih =>
    intro sys hlen
    have hnid : ¬ id ≥ TTYS_NUM_INSTANCES := by omega
    have hidlen : id < sys.states.length := by omega
    by_cases hne : (sys.states.getD id default).rx.get_idx =
        (sys.states.getD id default).rx.put_idx
    · have hring := ring_get_empty TTYS_RX_BUF_SIZE
        ((sys.states.getD id default).rx) hne
      have hint : ttys_getc id sys = (0, Option.none, sys) := by
        simp [ttys_getc, hnid, hring, -List.getD_eq_getElem?_getD]
      refine ⟨?_, ?_, ?_⟩ <;>
        simp [ttys_getc_n, hint, ring_get_n, hring, hlen, -List.getD_eq_getElem?_getD]
    · have hring := ring_get_nonempty TTYS_RX_BUF_SIZE
        ((sys.states.getD id default).rx) hne
      have hint : ttys_getc id sys =
          (1, some ((sys.states.getD id default).rx.buf.getD
              (sys.states.getD id default).rx.get_idx 0),
           { sys with
             states := sys.states.set id
               { sys.states.getD id default with
                 rx := (ring_get TTYS_RX_BUF_SIZE (sys.states.getD id default).rx).2 } }) := by
        simp only [List.getD_eq_getElem?_getD] at hring
        simp [ttys_getc, hnid, hring, List.getD_eq_getElem?_getD]
      have hlen' : (ttys_getc id sys).2.2.states.length = TTYS_NUM_INSTANCES := by
        rw [hint]
        simp [hlen]
      have hproj : ((ttys_getc id sys).2.2.states.getD id default).rx =
          (ring_get TTYS_RX_BUF_SIZE (sys.states.getD id default).rx).2 := by
        rw [hint]
        simp only [List.getD_eq_getElem?_getD, List.getElem?_set_self hidlen]
        rfl
      have hih := ih (ttys_getc id sys).2.2 hlen'
      have hstep : ttys_getc_n id sys (n + 1) =
          (((sys.states.getD id default).rx.buf.getD
              (sys.states.getD id default).rx.get_idx 0) ::
            (ttys_getc_n id (ttys_getc id sys).2.2 n).1,
           (ttys_getc_n id (ttys_getc id sys).2.2 n).2) := by
        conv_lhs => rw [ttys_getc_n, hint]
        rw [hint]
      have hrstep : ring_get_n TTYS_RX_BUF_SIZE ((sys.states.getD id default).rx) (n + 1) =
          (((sys.states.getD id default).rx.buf.getD
              (sys.states.getD id default).rx.get_idx 0) ::
            (ring_get_n TTYS_RX_BUF_SIZE
              (ring_get TTYS_RX_BUF_SIZE (sys.states.getD id default).rx).2 n).1,
           (ring_get_n TTYS_RX_BUF_SIZE
              (ring_get TTYS_RX_BUF_SIZE (sys.states.getD id default).rx).2 n).2) := by
        conv_lhs => rw [ring_get_n, hring]
        rw [hring]
      rw [hstep, hrstep]
      rw [hproj] at hih
      exact ⟨by rw [hih.1], by rw [hih.2.1], hih.2.2⟩

/-- C4 -- Ring-buffer round trip: for any serial port whose ring starts
empty at an arbitrary get/put offset (wraparound included) and any byte
sequence of length `K ≤ capacity - 1`, enqueueing via the producer path
and dequeueing `K` times via the consumer path yields the original
bytes in order and leaves the ring empty (`put = get`).  For the
transmit ring the producer is `ttys_putc` and the consumer the TXE
branch of `ttys_interrupt`; for the receive ring (same algorithm) the
producer is the RXNE branch of `ttys_interrupt` and the consumer
`ttys_getc`. -/
theorem ttys_ring_roundtrip (sys : TtysSystem) (id : Nat) (cs : List Nat)
    (hid : id < TTYS_NUM_INSTANCES)
    (hlen : sys.states.length = TTYS_NUM_INSTANCES) :
    (ring_wf TTYS_TX_BUF_SIZE (sys.states.getD id default).tx →
     (sys.states.getD id default).tx.get_idx =
       (sys.states.getD id default).tx.put_idx →
     cs.length ≤ TTYS_TX_BUF_SIZE - 1 →
     (ttys_txe_n id (ttys_putc_list id cs sys) cs.length).1 = cs ∧
     ((ttys_txe_n id (ttys_putc_list id cs sys) cs.length).2.states.getD id
         default).tx.get_idx =
       ((ttys_txe_n id (ttys_putc_list id cs sys) cs.length).2.states.getD id
         default).tx.put_idx) ∧
    (ring_wf TTYS_RX_BUF_SIZE (sys.states.getD id default).rx →
     (sys.states.getD id default).rx.get_idx =
       (sys.states.getD id default).rx.put_idx →
     cs.length ≤ TTYS_RX_BUF_SIZE - 1 →
     (ttys_getc_n id (ttys_rxne_list id cs sys) cs.length).1 = cs ∧
     ((ttys_getc_n id (ttys_rxne_list id cs sys) cs.length).2.states.getD id
         default).rx.get_idx =
       ((ttys_getc_n id (ttys_rxne_list id cs sys) cs.length).2.states.getD id
         default).rx.put_idx) := by
  constructor
  · intro hwf hempty hK
    have hput := ttys_putc_list_tx id hid cs sys hlen
    have htxe := ttys_txe_bridge id hid cs.length (ttys_putc_list id cs sys) hput.2
    have hrt := ring_roundtrip TTYS_TX_BUF_SIZE (by norm_num [TTYS_TX_BUF_SIZE])
      ((sys.states.getD id default).tx) cs hwf hempty hK
    constructor
    · rw [htxe.1, hput.1]
      exact hrt.1
    · rw [htxe.2.1, hput.1]
      exact hrt.2
  · intro hwf hempty hK
    have hput := ttys_rxne_list_rx id hid cs sys hlen
    have hgetc := ttys_getc_bridge id hid cs.length (ttys_rxne_list id cs sys) hput.2
    have hrt := ring_roundtrip TTYS_RX_BUF_SIZE (by norm_num [TTYS_RX_BUF_SIZE])
      ((sys.states.getD id default).rx) cs hwf hempty hK
    constructor
    · rw [hgetc.1, hput.1]
      exact hrt.1
    · rw [hgetc.2.1, hput.1]
      exact hrt.2

/-- Witness for C4: port 1, transmit ring empty at offset 1022 and
receive ring empty at offset 78 (both wrap during the trip), three
bytes each way. -/
theorem ttys_ring_roundtrip_witness :
    ((ttys_txe_n 1 (ttys_putc_list 1 [10, 20, 30]
        ⟨List.replicate 3 ⟨⟨List.replicate 1024 0, 1022, 1022⟩,
          ⟨List.replicate 80 0, 78, 78⟩⟩, List.replicate 6 0⟩) 3).1 = [10, 20, 30]) ∧
    ((ttys_getc_n 1 (ttys_rxne_list 1 [7, 8, 9]
        ⟨List.replicate 3 ⟨⟨List.replicate 1024 0, 1022, 1022⟩,
          ⟨List.replicate 80 0, 78, 78⟩⟩, List.replicate 6 0⟩) 3).1 = [7, 8, 9]) := by
  have h := ttys_ring_roundtrip
    ⟨List.replicate 3 ⟨⟨List.replicate 1024 0, 1022, 1022⟩,
      ⟨List.replicate 80 0, 78, 78⟩⟩, List.replicate 6 0⟩ 1 [10, 20, 30]
    (by norm_num [TTYS_NUM_INSTANCES]) (by simp [TTYS_NUM_INSTANCES])
  have h' := ttys_ring_roundtrip
    ⟨List.replicate 3 ⟨⟨List.replicate 1024 0, 1022, 1022⟩,
      ⟨List.replicate 80 0, 78, 78⟩⟩, List.replicate 6 0⟩ 1 [7, 8, 9]
    (by norm_num [TTYS_NUM_INSTANCES]) (by simp [TTYS_NUM_INSTANCES])
  constructor
  · exact (h.1 (by unfold ring_wf; decide) (by decide) (by decide)).1
  · exact (h'.2 (by unfold ring_wf; decide) (by decide) (by decide)).1

/-- On a full transmit ring, `ttys_putc` returns `MOD_ERR_BUF_OVERRUN`
and only bumps the shared overrun counter: the byte is dropped and no
instance state changes. -/
theorem ttys_putc_full_step (sys : TtysSystem) (id c : Nat)
    (hid : id < TTYS_NUM_INSTANCES)
    (hfull : ttys_tx_full (sys.states.getD id default)) :
    ttys_putc id c sys =
      (MOD_ERR_BUF_OVERRUN,
       { sys with
         cnts_u16 := sys.cnts_u16.set CNT_TX_BUF_OVERRUN
           (INC_SAT_U16 (sys.cnts_u16.getD CNT_TX_BUF_OVERRUN 0)) }) := by
  have hnid : ¬ id ≥ TTYS_NUM_INSTANCES := by omega
  have hpf := ring_put_full TTYS_TX_BUF_SIZE (sys.states.getD id default).tx c hfull
  simp [ttys_putc, hnid, hpf, -List.getD_eq_getElem?_getD]

/-- One saturating increment folded into the `min` formula. -/
theorem inc_sat_min (a n : Nat) (ha : a ≤ U16_MAX) :
    min (INC_SAT_U16 a + n) U16_MAX = min (a + (n + 1)) U16_MAX := by
  unfold INC_SAT_U16
  split_ifs <;> omega

/-- Iterating `ttys_putc` on a full transmit ring: the instance states
never change and the shared overrun counter accumulates one saturating
increment per dropped byte. -/
theorem ttys_putc_list_full (id : Nat) (hid : id < TTYS_NUM_INSTANCES) :
    ∀ (cs : List Nat) (sys : TtysSystem),
      ttys_tx_full (sys.states.getD id default) →
      sys.cnts_u16.getD CNT_TX_BUF_OVERRUN 0 ≤ U16_MAX →
      sys.cnts_u16.length = NUM_U16_PMS →
      (ttys_putc_list id cs sys).states = sys.states ∧
      (ttys_putc_list id cs sys).cnts_u16.getD CNT_TX_BUF_OVERRUN 0 =
        min (sys.cnts_u16.getD CNT_TX_BUF_OVERRUN 0 + cs.length) U16_MAX ∧
      (∀ k, k ≠ CNT_TX_BUF_OVERRUN →
        (ttys_putc_list id cs sys).cnts_u16.getD k 0 = sys.cnts_u16.getD k 0) := by
  intro cs
  induction cs with
  | nil =>
    intro sys hfull hcnt hclen
    refine ⟨rfl, ?_, fun k hk => rfl⟩
    show sys.cnts_u16.getD CNT_TX_BUF_OVERRUN 0 =
      min (sys.cnts_u16.getD CNT_TX_BUF_OVERRUN 0 + List.length []) U16_MAX
    simp only [List.length_nil, Nat.add_zero]
    omega
  | cons c cs ih =>
    intro sys hfull hcnt hclen
    have hstep := ttys_putc_full_step sys id c hid hfull
    have hfold : ttys_putc_list id (c :: cs) sys =
        ttys_putc_list id cs (ttys_putc id c sys).2 := by
      simp [ttys_putc_list]
    have hc4 : CNT_TX_BUF_OVERRUN < sys.cnts_u16.length := by
      rw [hclen]
      norm_num [CNT_TX_BUF_OVERRUN, NUM_U16_PMS]
    have hstates1 : (ttys_putc id c sys).2.states = sys.states := by
      rw [hstep]
    have hcnts1 : (ttys_putc id c sys).2.cnts_u16 =
        sys.cnts_u16.set CNT_TX_BUF_OVERRUN
          (INC_SAT_U16 (sys.cnts_u16.getD CNT_TX_BUF_OVERRUN 0)) := by
      rw [hstep]
    have hfull1 : ttys_tx_full ((ttys_putc id c sys).2.states.getD id default) := by
      rw [hstates1]
      exact hfull
    have hget1 : (ttys_putc id c sys).2.cnts_u16.getD CNT_TX_BUF_OVERRUN 0 =
        INC_SAT_U16 (sys.cnts_u16.getD CNT_TX_BUF_OVERRUN 0) := by
      rw [hcnts1, List.getD_eq_getElem?_getD, List.getElem?_set_self hc4]
      rfl
    have hcnt1 : (ttys_putc id c sys).2.cnts_u16.getD CNT_TX_BUF_OVERRUN 0 ≤ U16_MAX := by
      rw [hget1]
      unfold INC_SAT_U16
      split_ifs <;> omega
    have hclen1 : (ttys_putc id c sys).2.cnts_u16.length = NUM_U16_PMS := by
      rw [hcnts1]
      simp [hclen]
    have hih := ih (ttys_putc id c sys).2 hfull1 hcnt1 hclen1
    have hfold1 : (ttys_putc_list id (c :: cs) sys).states =
        (ttys_putc_list id cs (ttys_putc id c sys).2).states := by
      rw [hfold]
    have hfold2 : (ttys_putc_list id (c :: cs) sys).cnts_u16 =
        (ttys_putc_list id cs (ttys_putc id c sys).2).cnts_u16 := by
      rw [hfold]
    refine ⟨?_, ?_, ?_⟩
    · exact (hfold1.trans hih.1).trans hstates1
    · have e1 : (ttys_putc_list id (c :: cs) sys).cnts_u16.getD CNT_TX_BUF_OVERRUN 0 =
          min ((ttys_putc id c sys).2.cnts_u16.getD CNT_TX_BUF_OVERRUN 0 + cs.length)
            U16_MAX := by
        rw [hfold2]
        exact hih.2.1
      have e2 : min ((ttys_putc id c sys).2.cnts_u16.getD CNT_TX_BUF_OVERRUN 0 + cs.length)
          U16_MAX = min (sys.cnts_u16.getD CNT_TX_BUF_OVERRUN 0 + (cs.length + 1))
            U16_MAX := by
        rw [hget1]
        exact inc_sat_min _ _ hcnt
      have e3 : (c :: cs).length = cs.length + 1 := by
        simp
      rw [e3]
      exact e1.trans e2
    · intro k hk
      have e4 : (ttys_putc id c sys).2.cnts_u16.getD k 0 = sys.cnts_u16.getD k 0 := by
        rw [hcnts1, List.getD_eq_getElem?_getD,
          List.getElem?_set_ne (Ne.symm hk), ← List.getD_eq_getElem?_getD]
      exact (hfold2 ▸ hih.2.2 k hk).trans e4

/-- C5 -- Whenever the transmit ring is full, `ttys_putc` returns
`MOD_ERR_BUF_OVERRUN`, leaves every instance's buffer contents and
indices unchanged (the byte is dropped), and increments the shared
transmit-overrun counter, saturating at `UINT16_MAX`; enqueueing `n`
further bytes into the full buffer leaves the stored state unchanged
and raises the counter to `min (old + n) UINT16_MAX` -- exactly `n`
increments whenever saturation is not reached -- while every other
counter is untouched. -/
theorem ttys_putc_overrun_spec (sys : TtysSystem) (id c : Nat) (cs : List Nat)
    (hid : id < TTYS_NUM_INSTANCES)
    (hfull : ttys_tx_full (sys.states.getD id default))
    (hcnt : sys.cnts_u16.getD CNT_TX_BUF_OVERRUN 0 ≤ U16_MAX)
    (hclen : sys.cnts_u16.length = NUM_U16_PMS) :
    ((ttys_putc id c sys).1 = MOD_ERR_BUF_OVERRUN ∧
     (ttys_putc id c sys).2.states = sys.states ∧
     (ttys_putc id c sys).2.cnts_u16 =
       sys.cnts_u16.set CNT_TX_BUF_OVERRUN
         (INC_SAT_U16 (sys.cnts_u16.getD CNT_TX_BUF_OVERRUN 0))) ∧
    ((ttys_putc_list id cs sys).states = sys.states ∧
     (ttys_putc_list id cs sys).cnts_u16.getD CNT_TX_BUF_OVERRUN 0 =
       min (sys.cnts_u16.getD CNT_TX_BUF_OVERRUN 0 + cs.length) U16_MAX ∧
     (∀ k, k ≠ CNT_TX_BUF_OVERRUN →
       (ttys_putc_list id cs sys).cnts_u16.getD k 0 = sys.cnts_u16.getD k 0) ∧
     (sys.cnts_u16.getD CNT_TX_BUF_OVERRUN 0 + cs.length ≤ U16_MAX →
      (ttys_putc_list id cs sys).cnts_u16.getD CNT_TX_BUF_OVERRUN 0 =
        sys.cnts_u16.getD CNT_TX_BUF_OVERRUN 0 + cs.length)) := by
  have hstep := ttys_putc_full_step sys id c hid hfull
  have hlist := ttys_putc_list_full id hid cs sys hfull hcnt hclen
  refine ⟨⟨by rw [hstep], by rw [hstep], by rw [hstep]⟩,
    hlist.1, hlist.2.1, hlist.2.2, ?_⟩
  intro hn
  rw [hlist.2.1]
  omega

/-- Witness for C5: a full 1024-slot transmit ring on port 0; one
dropped byte bumps the counter to 1, four dropped bytes reach exactly
4. -/
theorem ttys_putc_overrun_spec_witness :
    ((ttys_putc 0 65
        ⟨List.replicate 3 ⟨⟨List.replicate 1024 0, 0, 1023⟩,
          ⟨List.replicate 80 0, 0, 0⟩⟩, List.replicate 6 0⟩).1 =
      MOD_ERR_BUF_OVERRUN) ∧
    ((ttys_putc_list 0 [1, 2, 3, 4]
        ⟨List.replicate 3 ⟨⟨List.replicate 1024 0, 0, 1023⟩,
          ⟨List.replicate 80 0, 0, 0⟩⟩, List.replicate 6 0⟩).cnts_u16.getD
        CNT_TX_BUF_OVERRUN 0 = 4) := by
  have h := ttys_putc_overrun_spec
    ⟨List.replicate 3 ⟨⟨List.replicate 1024 0, 0, 1023⟩,
      ⟨List.replicate 80 0, 0, 0⟩⟩, List.replicate 6 0⟩ 0 65 [1, 2, 3, 4]
    (by norm_num [TTYS_NUM_INSTANCES]) (by unfold ttys_tx_full; decide)
    (by decide) (by decide)
  refine ⟨h.1.1, ?_⟩
  have h4 := h.2.2.2.2 (by decide)
  rw [h4]
  decide

/-- C2 counterexample: the error/overrun counters are **not** per
serial port.  `cnts_u16` is a single module-level array "common to all
instances" (ttys.c lines 107-108, 139), registered once for the whole
"ttys" command client.  With port 0's transmit ring full, a dropped
byte on port 0 changes the one counter array that the diagnostics of
every port, port 1 included, report -- so an event on port A does not
leave "port B's counters" unchanged; no per-port counter exists. -/
theorem ttys_counters_not_per_port :
    ((ttys_putc 0 65
        ⟨List.replicate 3 ⟨⟨List.replicate 1024 0, 0, 1023⟩,
          ⟨List.replicate 80 0, 0, 0⟩⟩, List.replicate 6 0⟩).1 =
      MOD_ERR_BUF_OVERRUN) ∧
    ((ttys_putc 0 65
        ⟨List.replicate 3 ⟨⟨List.replicate 1024 0, 0, 1023⟩,
          ⟨List.replicate 80 0, 0, 0⟩⟩, List.replicate 6 0⟩).2.cnts_u16 ≠
      List.replicate 6 0) := by
  constructor
  · decide
  · decide

/-- C2 amended: the overrun/error counters are shared module-level
state, not per-port.  An overrun event on port A increments the single
shared `CNT_TX_BUF_OVERRUN` counter (the same storage every port's
`pm` diagnostics read), while port B's ring buffers, indices and all
other per-instance state are left unchanged. -/
theorem ttys_counters_shared (sys : TtysSystem) (idA idB c : Nat)
    (hA : idA < TTYS_NUM_INSTANCES) (hB : idB < TTYS_NUM_INSTANCES)
    (hfull : ttys_tx_full (sys.states.getD idA default)) :
    ttys_putc idA c sys =
      (MOD_ERR_BUF_OVERRUN,
       { sys with
         cnts_u16 := sys.cnts_u16.set CNT_TX_BUF_OVERRUN
           (INC_SAT_U16 (sys.cnts_u16.getD CNT_TX_BUF_OVERRUN 0)) }) ∧
    (ttys_putc idA c sys).2.states.getD idB default =
      sys.states.getD idB default := by
  have h1 := ttys_putc_full_step sys idA c hA hfull
  exact ⟨h1, by rw [h1]⟩

/-- Witness for the amended C2: overrun on port 0, port 1 observed. -/
theorem ttys_counters_shared_witness :
    (ttys_putc 0 65
        ⟨List.replicate 3 ⟨⟨List.replicate 1024 0, 0, 1023⟩,
          ⟨List.replicate 80 0, 0, 0⟩⟩, List.replicate 6 0⟩).2.states.getD 1 default =
      ⟨⟨List.replicate 1024 0, 0, 1023⟩, ⟨List.replicate 80 0, 0, 0⟩⟩ := by
  have h := ttys_counters_shared
    ⟨List.replicate 3 ⟨⟨List.replicate 1024 0, 0, 1023⟩,
      ⟨List.replicate 80 0, 0, 0⟩⟩, List.replicate 6 0⟩ 0 1 65
    (by norm_num [TTYS_NUM_INSTANCES]) (by norm_num [TTYS_NUM_INSTANCES])
    (by unfold ttys_tx_full; decide)
  rw [h.2]
  decide


/-! ### Theorems about the cmd module -/

/-- Two fixed names that differ case-insensitively exclude each other:
a token cannot `strcasecmp`-match both. -/
theorem lcEq_excl (t a b : List Char) (hab : lcEq a b = false)
    (ha : lcEq t a = true) : lcEq t b = false := by
  simp only [lcEq, beq_iff_eq] at ha ⊢
  simp only [lcEq, beq_eq_false_iff_ne, ne_eq] at hab
  simp only [beq_eq_false_iff_ne, ne_eq]
  intro h
  exact hab (ha ▸ h)

/-- C1 counterexample: on the command line `* foo` the first token is
`*` and the second token is not `log` (case-insensitively), yet
`cmd_execute` returns 0: the wildcard branch only acts on `log` and
otherwise falls through to `return 0` (cmd.c lines 225-251), so no
`MOD_ERR_ARG` is produced. -/
theorem cmd_wildcard_non_log_returns_zero :
    tokenize "* foo".data = [['*'], ['f', 'o', 'o']] ∧
    lcEq ['f', 'o', 'o'] "log".data = false ∧
    (cmd_execute [] "* foo".data).1 = 0 ∧
    (cmd_execute [] "* foo".data).1 ≠ MOD_ERR_ARG := by
  refine ⟨by decide, by decide, by decide, by decide⟩

/-- C1 amended -- For a command line whose first token is `*` (within
the token limit): if the second token is not `log` (case-insensitive),
`cmd_execute` returns 0 and leaves every client unchanged (the
unrecognized wildcard is silently ignored, not an `ArgError`); if the
second token is `log` and the single further token does not parse as a
known log-level name, `cmd_execute` returns `MOD_ERR_ARG` with the
registry unchanged. -/
theorem cmd_execute_wildcard_spec (clients : List CmdClientInfo)
    (bfr t1 : List Char) (rest : List (List Char))
    (htok : tokenize bfr = ['*'] :: t1 :: rest)
    (hmax : (tokenize bfr).length ≤ MAX_CMD_TOKENS) :
    (lcEq t1 "log".data = false →
      cmd_execute clients bfr = (0, clients, [])) ∧
    (lcEq t1 "log".data = true → ∀ t2, rest = [t2] → log_level_int t2 < 0 →
      cmd_execute clients bfr = (MOD_ERR_ARG, clients, [])) := by
  rw [htok] at hmax
  have hexec : cmd_execute clients bfr =
      ((cmd_wildcard clients (['*'] :: t1 :: rest)).1,
       (cmd_wildcard clients (['*'] :: t1 :: rest)).2, []) := by
    unfold cmd_execute
    rw [htok]
    rw [if_neg (by simp only [List.length_cons] at hmax ⊢; omega)]
    rw [if_neg (by simp)]
    rw [if_pos (by rfl)]
  constructor
  · intro hne
    have hw : cmd_wildcard clients (['*'] :: t1 :: rest) = (0, clients) := by
      unfold cmd_wildcard
      rw [if_neg (by simp)]
      rw [if_neg (by simp [List.getD, hne])]
    rw [hexec, hw]
  · intro hlog t2 hrest hlvl
    subst hrest
    have hw : cmd_wildcard clients (['*'] :: t1 :: [t2]) = (MOD_ERR_ARG, clients) := by
      unfold cmd_wildcard
      rw [if_neg (by simp)]
      rw [if_pos (by simp [List.getD, hlog])]
      rw [if_pos (by simp)]
      rw [if_pos (by simpa using hlvl)]
    rw [hexec, hw]

/-- Witness for the amended C1: `* foo` is silently accepted, while
`* log bogus` is an argument error. -/
theorem cmd_execute_wildcard_spec_witness :
    cmd_execute [] "* foo".data = (0, [], []) ∧
    cmd_execute [] "* log bogus".data = (MOD_ERR_ARG, [], []) := by
  have h1 := cmd_execute_wildcard_spec [] "* foo".data ['f', 'o', 'o'] []
    (by decide) (by decide)
  have h2 := cmd_execute_wildcard_spec [] "* log bogus".data "log".data
    ["bogus".data] (by decide) (by decide)
  exact ⟨h1.1 (by decide), h2.2 (by decide) "bogus".data rfl (by decide)⟩

/-- The built-in second tokens are intercepted inside the per-client
branch: no handler event is emitted, and `log`/`pm` without the
corresponding capability return 0 with the client unchanged. -/
theorem cmd_client_body_intercept (ci : CmdClientInfo) (idx : Nat)
    (tokens : List (List Char)) (t1 : List Char)
    (htok1 : (if tokens.length = 1 then [] else tokens.getD 1 []) = t1)
    (hb : lcEq t1 "help".data = true ∨ lcEq t1 "?".data = true ∨
      lcEq t1 "log".data = true ∨ lcEq t1 "pm".data = true) :
    (cmd_client_body ci idx tokens).2.2 = [] ∧
    (lcEq t1 "log".data = true → ci.log_level = Option.none →
      cmd_client_body ci idx tokens = (0, ci, [])) ∧
    (lcEq t1 "pm".data = true → ci.u16_pms = [] →
      cmd_client_body ci idx tokens = (0, ci, [])) := by
  unfold cmd_client_body
  rw [htok1]
  by_cases hho : (lcEq t1 "help".data = true ∨ lcEq t1 "?".data = true)
  · rw [if_pos hho]
    exact ⟨rfl, fun _ _ => rfl, fun _ _ => rfl⟩
  · rw [if_neg hho]
    by_cases hlog : lcEq t1 "log".data = true
    · rw [if_pos hlog]
      have hpmf : lcEq t1 "pm".data = false :=
        lcEq_excl t1 "log".data "pm".data (by decide) hlog
      cases hlv : ci.log_level with
      | none =>
        exact ⟨rfl, fun _ _ => rfl, fun _ _ => rfl⟩
      | some lv =>
        refine ⟨?_, ?_, ?_⟩
        · dsimp only
          split_ifs <;> rfl
        · intro _ hnone
          exact absurd hnone (by simp)
        · intro hpm _
          rw [hpmf] at hpm
          exact absurd hpm (by simp)
    · rw [if_neg hlog]
      by_cases hpm : lcEq t1 "pm".data = true
      · rw [if_pos hpm]
        refine ⟨?_, ?_, ?_⟩
        · split_ifs <;> rfl
        · intro hlog' _
          exact absurd hlog' hlog
        · intro _ hpms
          rw [if_neg (by simp [hpms])]
      · exfalso
        rcases hb with h | h | h | h
        · exact hho (Or.inl h)
        · exact hho (Or.inr h)
        · exact hlog h
        · exact hpm h

/-- Interception through the client-search loop: for the first client
whose name matches token 0, the built-in second tokens emit no handler
event, and `log`/`pm` without the capability return 0 leaving the whole
registry unchanged. -/
theorem cmd_dispatch_intercepts (t0 t1 : List Char)
    (tokens : List (List Char)) (h0 : tokens.getD 0 [] = t0)
    (h1 : tokens.getD 1 [] = t1) (h2 : 2 ≤ tokens.length)
    (hb : lcEq t1 "help".data = true ∨ lcEq t1 "?".data = true ∨
      lcEq t1 "log".data = true ∨ lcEq t1 "pm".data = true) :
    ∀ (clients : List CmdClientInfo) (idx : Nat) (ci : CmdClientInfo),
      cmd_find_client clients t0 = some ci →
      (cmd_dispatch clients idx tokens).2.2 = [] ∧
      (lcEq t1 "log".data = true → ci.log_level = Option.none →
        cmd_dispatch clients idx tokens = (0, clients, [])) ∧
      (lcEq t1 "pm".data = true → ci.u16_pms = [] →
        cmd_dispatch clients idx tokens = (0, clients, [])) := by
  have htok1 : (if tokens.length = 1 then [] else tokens.getD 1 []) = t1 := by
    rw [if_neg (by omega), h1]
  intro clients
  induction clients with
  | nil =>
    intro idx ci hfind
    simp [cmd_find_client] at hfind
  | cons hd rest ih =>
    intro idx ci hfind
    by_cases hm : lcEq t0 hd.name
    · have hci : hd = ci := by
        unfold cmd_find_client at hfind
        rw [if_pos hm] at hfind
        exact Option.some.inj hfind
      subst hci
      have hbody := cmd_client_body_intercept hd idx tokens t1 htok1 hb
      unfold cmd_dispatch
      rw [h0, if_pos hm]
      refine ⟨hbody.1, ?_, ?_⟩
      · intro ha hc
        rw [hbody.2.1 ha hc]
      · intro ha hc
        rw [hbody.2.2 ha hc]
    · have hfind' : cmd_find_client rest t0 = some ci := by
        unfold cmd_find_client at hfind
        rwa [if_neg hm] at hfind
      have hih := ih (idx + 1) ci hfind'
      unfold cmd_dispatch
      rw [h0, if_neg hm]
      refine ⟨hih.1, ?_, ?_⟩
      · intro ha hc
        rw [hih.2.1 ha hc]
      · intro ha hc
        rw [hih.2.2 ha hc]

/-- C9 -- For every registered client, `cmd_execute` intercepts the
second tokens `help`/`?`, `log` and `pm` (case-insensitive) before
searching the client's sub-command list: no handler is ever invoked for
them (so a sub-command registered under the name `log` or `pm` is never
dispatched), and `log`/`pm` return 0 with no state change even when the
client exposes no log-level reference or performance counters. -/
theorem cmd_execute_builtin_intercepts (clients : List CmdClientInfo)
    (bfr t0 t1 : List Char) (rest : List (List Char)) (ci : CmdClientInfo)
    (htok : tokenize bfr = t0 :: t1 :: rest)
    (hmax : (tokenize bfr).length ≤ MAX_CMD_TOKENS)
    (hstar : t0 ≠ ['*'])
    (hhelp : lcEq t0 "help".data = false) (hq : lcEq t0 "?".data = false)
    (hfind : cmd_find_client (clients.take CMD_MAX_CLIENTS) t0 = some ci)
    (hb : lcEq t1 "help".data = true ∨ lcEq t1 "?".data = true ∨
      lcEq t1 "log".data = true ∨ lcEq t1 "pm".data = true) :
    (cmd_execute clients bfr).2.2 = [] ∧
    (lcEq t1 "log".data = true → ci.log_level = Option.none →
      cmd_execute clients bfr = (0, clients, [])) ∧
    (lcEq t1 "pm".data = true → ci.u16_pms = [] →
      cmd_execute clients bfr = (0, clients, [])) := by
  rw [htok] at hmax
  have hexec : cmd_execute clients bfr =
      ((cmd_dispatch (clients.take CMD_MAX_CLIENTS) 0 (t0 :: t1 :: rest)).1,
       (cmd_dispatch (clients.take CMD_MAX_CLIENTS) 0 (t0 :: t1 :: rest)).2.1
         ++ clients.drop CMD_MAX_CLIENTS,
       (cmd_dispatch (clients.take CMD_MAX_CLIENTS) 0 (t0 :: t1 :: rest)).2.2) := by
    unfold cmd_execute
    rw [htok]
    rw [if_neg (by simp only [List.length_cons] at hmax ⊢; omega)]
    rw [if_neg (by simp)]
    rw [if_neg (by simpa [List.getD] using hstar)]
    rw [if_neg (by simp [List.getD, hhelp, hq])]
  have hdisp := cmd_dispatch_intercepts t0 t1 (t0 :: t1 :: rest)
    (by simp [List.getD]) (by simp [List.getD]) (by simp)
    hb (clients.take CMD_MAX_CLIENTS) 0 ci hfind
  refine ⟨?_, ?_, ?_⟩
  · rw [hexec]
    exact hdisp.1
  · intro ha hc
    rw [hexec, hdisp.2.1 ha hc]
    simp
  · intro ha hc
    rw [hexec, hdisp.2.2 ha hc]
    simp

/-- Witness for C9: a client that registers a sub-command literally
named `log` but exposes no log-level pointer and no counters -- the
command `tmr log` returns 0, changes nothing, and never dispatches the
handler; likewise `tmr pm`. -/
theorem cmd_execute_builtin_intercepts_witness :
    (cmd_execute [⟨"tmr".data, [⟨"log".data, "h".data⟩], Option.none, [], []⟩]
        "tmr log".data =
      (0, [⟨"tmr".data, [⟨"log".data, "h".data⟩], Option.none, [], []⟩], [])) ∧
    (cmd_execute [⟨"tmr".data, [⟨"pm".data, "h".data⟩], Option.none, [], []⟩]
        "tmr pm".data =
      (0, [⟨"tmr".data, [⟨"pm".data, "h".data⟩], Option.none, [], []⟩], [])) := by
  have h1 := cmd_execute_builtin_intercepts
    [⟨"tmr".data, [⟨"log".data, "h".data⟩], Option.none, [], []⟩]
    "tmr log".data "tmr".data "log".data []
    ⟨"tmr".data, [⟨"log".data, "h".data⟩], Option.none, [], []⟩
    (by decide) (by decide) (by decide) (by decide) (by decide) (by decide)
    (by decide)
  have h2 := cmd_execute_builtin_intercepts
    [⟨"tmr".data, [⟨"pm".data, "h".data⟩], Option.none, [], []⟩]
    "tmr pm".data "tmr".data "pm".data []
    ⟨"tmr".data, [⟨"pm".data, "h".data⟩], Option.none, [], []⟩
    (by decide) (by decide) (by decide) (by decide) (by decide) (by decide)
    (by decide)
  exact ⟨h1.2.1 (by decide) rfl, h2.2.2 (by decide) rfl⟩

/-- C7 -- The argument grammar of `cmd_parse_args` on format `"u[u"`:
one valid unsigned token parses with count 1 and two with count 2; zero
tokens are `MOD_ERR_BAD_CMD` (mandatory argument missing, diagnostic
"insufficient arguments"); three tokens are `MOD_ERR_BAD_CMD` (more
than the format consumes, diagnostic "too many arguments"); a token
with trailing unconsumed characters yields `MOD_ERR_ARG` with a
diagnostic naming that token. -/
theorem cmd_parse_args_u_opt_u :
    (∀ t, t ≠ [] → (strtoul0 t).2 = [] →
      cmd_parse_args [t] "u[u".data = (1, [CmdArgVal.u (strtoul0 t).1], [])) ∧
    (∀ t1 t2, t1 ≠ [] → t2 ≠ [] → (strtoul0 t1).2 = [] → (strtoul0 t2).2 = [] →
      cmd_parse_args [t1, t2] "u[u".data =
        (2, [CmdArgVal.u (strtoul0 t1).1, CmdArgVal.u (strtoul0 t2).1], [])) ∧
    (cmd_parse_args [] "u[u".data =
      (MOD_ERR_BAD_CMD, [], [CmdDiag.insufficient_args])) ∧
    (∀ t1 t2 t3, t1 ≠ [] → t2 ≠ [] → (strtoul0 t1).2 = [] → (strtoul0 t2).2 = [] →
      (cmd_parse_args [t1, t2, t3] "u[u".data).1 = MOD_ERR_BAD_CMD ∧
      (cmd_parse_args [t1, t2, t3] "u[u".data).2.2 = [CmdDiag.too_many_args]) ∧
    (∀ t, t ≠ [] → (strtoul0 t).2 ≠ [] →
      cmd_parse_args [t] "u[u".data =
        (MOD_ERR_ARG, [], [CmdDiag.not_valid_unsigned t])) := by
  refine ⟨?_, ?_, by decide, ?_, ?_⟩
  · intro t ht hu
    simp [cmd_parse_args, cmd_parse_args_aux, ht, hu]
  · intro t1 t2 h1 h2 hu1 hu2
    simp [cmd_parse_args, cmd_parse_args_aux, h1, h2, hu1, hu2]
  · intro t1 t2 t3 h1 h2 hu1 hu2
    constructor <;>
      simp [cmd_parse_args, cmd_parse_args_aux, h1, h2, hu1, hu2]
  · intro t ht hu
    simp [cmd_parse_args, cmd_parse_args_aux, ht, hu]

/-- Witness for C7: tokens `5`, `7`, and the literal `0x1G` from the
spec. -/
theorem cmd_parse_args_u_opt_u_witness :
    cmd_parse_args ["5".data] "u[u".data = (1, [CmdArgVal.u 5], []) ∧
    cmd_parse_args ["5".data, "7".data] "u[u".data =
      (2, [CmdArgVal.u 5, CmdArgVal.u 7], []) ∧
    (cmd_parse_args ["5".data, "7".data, "9".data] "u[u".data).1 =
      MOD_ERR_BAD_CMD ∧
    cmd_parse_args ["0x1G".data] "u[u".data =
      (MOD_ERR_ARG, [], [CmdDiag.not_valid_unsigned "0x1G".data]) := by
  have hp := cmd_parse_args_u_opt_u
  refine ⟨?_, ?_, ?_, ?_⟩
  · have := hp.1 "5".data (by decide) (by decide)
    simpa using this
  · have := hp.2.1 "5".data "7".data (by decide) (by decide) (by decide) (by decide)
    simpa using this
  · exact (hp.2.2.2.1 "5".data "7".data "9".data (by decide) (by decide)
      (by decide) (by decide)).1
  · exact hp.2.2.2.2 "0x1G".data (by decide) (by decide)

end Mcu
